import Mathlib

/-!
Verification of the word-matching and variant-classification engine of the
Brenton LXX error finder.

The development shallowly embeds the Python sources
`valid_variation_patterns.py`, `check_missing_words.py` and
`book_code_mappings.py`.  Words are modelled as `List Char`; Python's
`str.replace` (replace all non-overlapping occurrences, scanning left to
right) is `pyReplace`, substring tests (`in`) are `isSub`, Python
`set`s are duplicate-free lists built with `insertUniq` (a fixed insertion
order stands in for Python's unspecified set iteration order; every property
proved below is insensitive to that order), Python dicts are association
lists where an update of an existing key replaces the value in place (as in
CPython) and iteration follows insertion order.  Floating-point similarity
scores are modelled as exact rationals.  Unicode case folding and NFD
decomposition are modelled by finite tables covering the Greek character
repertoire this program manipulates; characters outside the tables are
treated as unaccented lowercase letters, which agrees with Python on every
string appearing in the sources and in the concrete inputs used here.
-/

namespace BrentonSpec

/-! ### Unicode primitives: `str.lower`, `unicodedata.normalize('NFD', ·)`,
combining-mark removal (the `strip_accents` / `strip_diacritics` helpers). -/

/-- Case-folding table for the Greek capitals used by the program
(`str.lower`). -/
def lowerTable : List (Char × Char) :=
  [('Α', 'α'), ('Β', 'β'), ('Γ', 'γ'), ('Δ', 'δ'), ('Ε', 'ε'), ('Ζ', 'ζ'),
   ('Η', 'η'), ('Θ', 'θ'), ('Ι', 'ι'), ('Κ', 'κ'), ('Λ', 'λ'), ('Μ', 'μ'),
   ('Ν', 'ν'), ('Ξ', 'ξ'), ('Ο', 'ο'), ('Π', 'π'), ('Ρ', 'ρ'), ('Σ', 'σ'),
   ('Τ', 'τ'), ('Υ', 'υ'), ('Φ', 'φ'), ('Χ', 'χ'), ('Ψ', 'ψ'), ('Ω', 'ω')]

def lowerChar (c : Char) : Char :=
  match lowerTable.find? (fun p => p.1 == c) with
  | some p => p.2
  | none => c

def pyLower (s : List Char) : List Char := s.map lowerChar

/-- NFD decomposition table for the precomposed accented Greek letters the
program's pattern tables and test data contain. -/
def nfdTable : List (Char × List Char) :=
  [('ά', ['α', '́']), ('έ', ['ε', '́']), ('ή', ['η', '́']),
   ('ί', ['ι', '́']), ('ό', ['ο', '́']), ('ύ', ['υ', '́']),
   ('ώ', ['ω', '́']), ('ἀ', ['α', '̓']), ('ἐ', ['ε', '̓']),
   ('ὀ', ['ο', '̓']), ('ὑ', ['υ', '̔']), ('ϊ', ['ι', '̈'])]

def nfdChar (c : Char) : List Char :=
  match nfdTable.find? (fun p => p.1 == c) with
  | some p => p.2
  | none => [c]

/-- Combining marks (Unicode category `Mn`) relevant to Greek. -/
def combiningMarks : List Char :=
  ['̀', '́', '̄', '̆', '̈', '̓', '̔',
   '͂', 'ͅ']

def isCombiningMark (c : Char) : Bool := combiningMarks.contains c

/-- `strip_accents` from `valid_variation_patterns.py`: NFD-decompose and
drop combining marks. -/
def strip_accents (s : List Char) : List Char :=
  (s.map nfdChar).flatten.filter (fun c => !isCombiningMark c)

/-- `strip_diacritics` from `check_missing_words.py`.  The extra NFC
normalisation steps it performs are the identity on mark-free text over the
modelled repertoire, so it coincides with `strip_accents`. -/
def strip_diacritics (s : List Char) : List Char := strip_accents s

/-- `strip_accents(word.lower())`, the normalisation used throughout
`valid_variation_patterns.py`. -/
def vvpNorm (w : List Char) : List Char := strip_accents (pyLower w)

/-- `strip_diacritics(word.lower())`, the normalisation used throughout
`check_missing_words.py`. -/
def cmwNorm (w : List Char) : List Char := strip_diacritics (pyLower w)

/-! ### Python `str.replace` and set emulation -/

/-- Python's `str.replace(p, r)`: replace every non-overlapping occurrence of
`p`, scanning left to right.  (Python's behaviour for an empty pattern —
inserting `r` at every position — never arises: all patterns in the tables
are nonempty; the empty-pattern case is modelled as the identity.) -/
def pyReplaceAux (p r : List Char) : Nat → List Char → List Char
  | 0, s => s
  | fuel + 1, s =>
    if p.isPrefixOf s ∧ p ≠ [] then
      r ++ pyReplaceAux p r fuel (s.drop p.length)
    else
      match s with
      | [] => []
      | c :: t => c :: pyReplaceAux p r fuel t

/-- The scan consumes at least one character of `s` per step, so a fuel of
`s.length` is never exhausted and the fuel-free reading above is exact. -/
def pyReplace (p r : List Char) (s : List Char) : List Char :=
  pyReplaceAux p r s.length s

/-- Python's substring test `p in s`. -/
def isSub (p s : List Char) : Bool :=
  if p.isPrefixOf s then true
  else
    match s with
    | [] => false
    | _ :: t => isSub p t

/-- `set.add`: append the element unless already present. -/
def insertUniq (l : List (List Char)) (x : List Char) : List (List Char) :=
  if x ∈ l then l else l ++ [x]

/-- `set(cur)`: deduplicate, keeping first occurrences. -/
def setCopy (cur : List (List Char)) : List (List Char) :=
  cur.foldl insertUniq []

/-! ### The variation pattern tables of `valid_variation_patterns.py` -/

def LAMBDA_FUTURE_PATTERNS : List (List Char × List Char) :=
  [("λήψ".data, "λημψ".data), ("λήψ".data, "λήμψ".data),
   ("ληψ".data, "λημψ".data)]

def LAMBDA_COMPOUNDS : List (List Char) :=
  ["ἀναλήψ".data, "ἀναλημψ".data,
   "ἀντιλήψ".data, "ἀντιλημψ".data,
   "ἐπιλήψ".data, "ἐπιλημψ".data,
   "καταλήψ".data, "καταλημψ".data,
   "μεταλήψ".data, "μεταλημψ".data,
   "παραλήψ".data, "παραλημψ".data,
   "περιλήψ".data, "περιλημψ".data,
   "προκαταλήψ".data, "προκαταλημψ".data,
   "προλήψ".data, "προλημψ".data,
   "συλλήψ".data, "συλλημψ".data,
   "συμπαραλήψ".data, "συμπαραλημψ".data,
   "συμπεριλήψ".data, "συμπεριλημψ".data,
   "συναντιλήψ".data, "συναντιλημψ".data,
   "ὑπολήψ".data, "ὑπολημψ".data]

def AORIST_PASSIVE_LAMBDA : List (List Char × List Char) :=
  [("ληφθ".data, "λημφθ".data), ("λήφθ".data, "λήμφθ".data),
   ("ληψθ".data, "λημψθ".data)]

def DESTRUCTION_VERB_VARIATIONS : List (List Char × List Char) :=
  [("ολοθρ".data, "ολεθρ".data), ("ολοθρευ".data, "ολεθρευ".data),
   ("ξολοθρ".data, "ξολεθρ".data), ("ξωλοθρ".data, "ξωλεθρ".data)]

def LOAN_VERB_VARIATIONS : List (List Char × List Char) :=
  [("δανε".data, "δανι".data), ("δανειζ".data, "δανιζ".data),
   ("δανεισ".data, "δανισ".data)]

def GENERATION_VARIATIONS : List (List Char × List Char) :=
  [("γεννημ".data, "γενημ".data), ("γεννηματ".data, "γενηματ".data),
   ("εννημ".data, "ενημ".data)]

def COMMAND_VERB_VARIATIONS : List (List Char × List Char) :=
  [("ἐντελλ".data, "ἀντελλ".data), ("ἐντελ".data, "ἐντλ".data)]

def CIRCUMCISION_VARIATIONS : List (List Char × List Char) :=
  [("περιτεμεσθ".data, "περιτεμνεσθ".data), ("περιτεμε".data, "περιτεμνε".data)]

def VOWEL_CONTRACTIONS : List (List Char × List Char) :=
  [("εω".data, "ω".data), ("οε".data, "ου".data), ("αε".data, "α".data),
   ("αο".data, "ω".data), ("εε".data, "ει".data)]

def DIPHTHONG_VARIATIONS : List (List Char × List Char) :=
  [("ει".data, "ι".data), ("οι".data, "υ".data), ("αι".data, "ε".data)]

def ABLAUT_VARIATIONS : List (List Char × List Char) :=
  [("ε".data, "η".data), ("ο".data, "ω".data), ("α".data, "η".data)]

def AORIST_VOWEL_VARIATIONS : List (List Char × List Char) :=
  [("φειλ".data, "φηλ".data), ("ειλ".data, "ηλ".data)]

def AORIST_CONSONANT_VARIATIONS : List (List Char × List Char) :=
  [("θη".data, "ση".data)]

def COMPOUND_PREFIX_VARIATIONS : List (List (List Char)) :=
  [["προσ".data, "προ".data],
   ["κατα".data, "κατ".data, "καθ".data],
   ["ἀπο".data, "ἀπ".data, "ἀφ".data],
   ["ἐπι".data, "ἐπ".data, "ἐφ".data],
   ["συν".data, "συ".data, "συμ".data]]

def PARTICIPLE_VARIATIONS : List (List Char × List Char) :=
  [("ουσ".data, "οντ".data), ("ων".data, "οντ".data), ("ομεν".data, "ωμεν".data)]

def DIALECTAL_LETTER_VARIATIONS : List (List Char × List Char) :=
  [("ρρ".data, "ρ".data), ("λλ".data, "λ".data), ("σσ".data, "σ".data),
   ("ττ".data, "τ".data)]

/-- `for i in range(0, len(L), 2)` pairing of the flat compound list. -/
def pairUp : List (List Char) → List (List Char × List Char)
  | a :: b :: t => (a, b) :: pairUp t
  | _ => []

/-! ### `generate_variation_list` -/

/-- One pattern-category pass over a single variant (the inner loops of
`generate_variation_list`): keep `var`, and for each rule add the one-shot
all-occurrence substitutions in both directions when the pattern occurs. -/
def addPatVariants (pats : List (List Char × List Char)) (var : List Char)
    (acc : List (List Char)) : List (List Char) :=
  pats.foldl (fun a p =>
    let a := if isSub p.1 var then insertUniq a (pyReplace p.1 p.2 var) else a
    if isSub p.2 var then insertUniq a (pyReplace p.2 p.1 var) else a)
    (insertUniq acc var)

/-- One pattern-category pass over the accumulated variant set. -/
def applyPats (pats : List (List Char × List Char))
    (cur : List (List Char)) : List (List Char) :=
  cur.foldl (fun acc var => addPatVariants pats var acc) []

/-- The compound-prefix pass, whose rules are 2-way or 3-way groups. -/
def addGroupVariants (groups : List (List (List Char))) (var : List Char)
    (acc : List (List Char)) : List (List Char) :=
  groups.foldl (fun a g =>
    match g with
    | [p1, p2] =>
      let a := if isSub p1 var then insertUniq a (pyReplace p1 p2 var) else a
      if isSub p2 var then insertUniq a (pyReplace p2 p1 var) else a
    | [p1, p2, p3] =>
      let a := if isSub p1 var then
        insertUniq (insertUniq a (pyReplace p1 p2 var)) (pyReplace p1 p3 var) else a
      let a := if isSub p2 var then
        insertUniq (insertUniq a (pyReplace p2 p1 var)) (pyReplace p2 p3 var) else a
      if isSub p3 var then
        insertUniq (insertUniq a (pyReplace p3 p1 var)) (pyReplace p3 p2 var) else a
    | _ => a)
    (insertUniq acc var)

def applyGroups (groups : List (List (List Char)))
    (cur : List (List Char)) : List (List Char) :=
  cur.foldl (fun acc var => addGroupVariants groups var acc) []

/-- The final movable-ν step of `generate_variation_list`. -/
def movableNu (cur : List (List Char)) : List (List Char) :=
  cur.foldl (fun acc var =>
    if var.getLast? == some 'ε' || var.getLast? == some 'ι' then
      insertUniq acc (var ++ ['ν'])
    else if ("εν".data).isSuffixOf var || ("ιν".data).isSuffixOf var then
      insertUniq acc var.dropLast
    else acc) (setCopy cur)

/-- `variation_type in [cat, "all"]`. -/
def catGuard (vt cat : String) : Bool := vt == cat || vt == "all"

/-- `generate_variation_list` from `valid_variation_patterns.py`: normalise,
then apply each selected category as a single pass over the accumulated set,
finally add movable-ν alternants. -/
def generate_variation_list (base_word : List Char) (variation_type : String) :
    List (List Char) :=
  let word_norm := strip_accents (pyLower base_word)
  let cur := [word_norm]
  let cur := if catGuard variation_type "lambda_future" then
      applyPats (pairUp LAMBDA_COMPOUNDS) (applyPats LAMBDA_FUTURE_PATTERNS cur)
    else cur
  let cur := if catGuard variation_type "destruction" then
      applyPats DESTRUCTION_VERB_VARIATIONS cur else cur
  let cur := if catGuard variation_type "generation" then
      applyPats GENERATION_VARIATIONS cur else cur
  let cur := if catGuard variation_type "loan" then
      applyPats LOAN_VERB_VARIATIONS cur else cur
  let cur := if catGuard variation_type "command" then
      applyPats COMMAND_VERB_VARIATIONS cur else cur
  let cur := if catGuard variation_type "circumcision" then
      applyPats CIRCUMCISION_VARIATIONS cur else cur
  let cur := if catGuard variation_type "vowel" then
      applyPats ABLAUT_VARIATIONS
        (applyPats DIPHTHONG_VARIATIONS (applyPats VOWEL_CONTRACTIONS cur))
    else cur
  let cur := if catGuard variation_type "aorist" then
      applyPats AORIST_CONSONANT_VARIATIONS
        (applyPats AORIST_VOWEL_VARIATIONS (applyPats AORIST_PASSIVE_LAMBDA cur))
    else cur
  let cur := if catGuard variation_type "dialectal" then
      applyPats DIALECTAL_LETTER_VARIATIONS cur else cur
  let cur := if catGuard variation_type "compound" then
      applyGroups COMPOUND_PREFIX_VARIATIONS cur else cur
  let cur := if catGuard variation_type "participle" then
      applyPats PARTICIPLE_VARIATIONS cur else cur
  movableNu cur

/-! ### `is_likely_legitimate_variation` and its helper checks -/

/-- `has_lambda_future_variation`: both simple patterns and paired compounds,
each tried in both substitution directions under the containment guard. -/
def has_lambda_future_variation (word1 word2 : List Char) : Bool :=
  let n1 := strip_accents (pyLower word1)
  let n2 := strip_accents (pyLower word2)
  (LAMBDA_FUTURE_PATTERNS.any fun p =>
    isSub p.1 n1 && isSub p.2 n2 &&
      (pyReplace p.1 p.2 n1 == n2 || pyReplace p.2 p.1 n2 == n1))
  || ((pairUp LAMBDA_COMPOUNDS).any fun p =>
    isSub p.1 n1 && isSub p.2 n2 &&
      (pyReplace p.1 p.2 n1 == n2 || pyReplace p.2 p.1 n2 == n1))

/-- `has_destruction_verb_variation`: looser guard (either pattern side in
either word), both substitution directions. -/
def has_destruction_verb_variation (word1 word2 : List Char) : Bool :=
  let n1 := strip_accents (pyLower word1)
  let n2 := strip_accents (pyLower word2)
  DESTRUCTION_VERB_VARIATIONS.any fun p =>
    (isSub p.1 n1 || isSub p.2 n1) && (isSub p.1 n2 || isSub p.2 n2) &&
      (pyReplace p.1 p.2 n1 == n2 || pyReplace p.2 p.1 n2 == n1)

/-- `has_generation_variation`: same shape as the destruction check. -/
def has_generation_variation (word1 word2 : List Char) : Bool :=
  let n1 := strip_accents (pyLower word1)
  let n2 := strip_accents (pyLower word2)
  GENERATION_VARIATIONS.any fun p =>
    (isSub p.1 n1 || isSub p.2 n1) && (isSub p.1 n2 || isSub p.2 n2) &&
      (pyReplace p.1 p.2 n1 == n2 || pyReplace p.2 p.1 n2 == n1)

/-- The one-directional pattern loops inside `is_likely_legitimate_variation`
(loan, command, circumcision, vowel, diphthong, ablaut, dialectal): the rule
fires only as `word1.replace(p1, p2) == word2`. -/
def dirCheck (pats : List (List Char × List Char)) (n1 n2 : List Char) : Bool :=
  pats.any fun p =>
    isSub p.1 n1 && isSub p.2 n2 && (pyReplace p.1 p.2 n1 == n2)

/-- `is_likely_legitimate_variation` from `valid_variation_patterns.py`. -/
def is_likely_legitimate_variation (word1 word2 : List Char) :
    Bool × Option String :=
  if has_lambda_future_variation word1 word2 then (true, some "lambda_future")
  else if has_destruction_verb_variation word1 word2 then
    (true, some "destruction_verb")
  else if has_generation_variation word1 word2 then
    (true, some "generation_word")
  else
    let word1_norm := strip_accents (pyLower word1)
    let word2_norm := strip_accents (pyLower word2)
    if dirCheck LOAN_VERB_VARIATIONS word1_norm word2_norm then
      (true, some "loan_verb")
    else if dirCheck COMMAND_VERB_VARIATIONS word1_norm word2_norm then
      (true, some "command_verb")
    else if dirCheck CIRCUMCISION_VARIATIONS word1_norm word2_norm then
      (true, some "circumcision_verb")
    else if dirCheck VOWEL_CONTRACTIONS word1_norm word2_norm then
      (true, some "vowel_contraction")
    else if dirCheck DIPHTHONG_VARIATIONS word1_norm word2_norm then
      (true, some "diphthong_variation")
    else if dirCheck ABLAUT_VARIATIONS word1_norm word2_norm then
      (true, some "ablaut")
    else if dirCheck DIALECTAL_LETTER_VARIATIONS word1_norm word2_norm then
      (true, some "dialectal_consonant")
    else
      let all_variations := generate_variation_list word1 "all"
      if word2_norm ∈ all_variations then (true, some "combined_variation")
      else (false, none)

/-! ### `book_code_mappings.py` -/

/-- Mapping from Brenton Greek book names to Swete book codes. -/
def BRENTON_TO_SWETE : List (String × String) :=
  [("ΓΕΝΕΣΙΣ", "Gen"), ("ΕΞΟΔΟΣ", "Exo"), ("ΛΕΥΙΤΙΚΟΝ", "Lev"),
   ("ΑΡΙΘΜΟΙ", "Num"), ("ΔΕΥΤΕΡΟΝΟΜΙΟΝ", "Deu"),
   ("ΙΗΣΟΥΣ ΝΑΥΗ", "Jos"), ("ΚΡΙΤΑΙ", "Jdg"), ("ΡΟΥΘ", "Rut"),
   ("ΒΑΣΙΛΕΙΩΝ Α", "1Sa"), ("ΒΑΣΙΛΕΙΩΝ Β", "2Sa"),
   ("ΒΑΣΙΛΕΙΩΝ Γ", "1Ki"), ("ΒΑΣΙΛΕΙΩΝ Δ", "2Ki"),
   ("ΠΑΡΑΛΕΙΠΟΜΕΝΩΝ Α", "1Ch"), ("ΠΑΡΑΛΕΙΠΟΜΕΝΩΝ Β", "2Ch"),
   ("ΕΣΔΡΑΣ", "Ezr"), ("ΝΕΕΜΙΑΣ", "Neh"), ("ΕΣΔΡΑΣ Α", "1Es"),
   ("ΕΣΘΗΡ", "Est"), ("ΙΩΒ", "Job"), ("ΨΑΛΜΟΙ", "Psa"),
   ("ΠΑΡΟΙΜΙΑΙ ΣΑΛΩΜΩΝΤΟΣ", "Pro"), ("ΕΚΚΛΗΣΙΑΣΤΗΣ", "Ecc"),
   ("ΑΣΜΑ", "Sol"), ("ΗΣΑΙΑΣ", "Isa"), ("ΙΕΡΕΜΙΑΣ", "Jer"),
   ("ΘΡΗΝΟΙ ΙΕΡΕΜΙΟΥ", "Lam"), ("ΙΕΖΕΚΙΗΛ", "Eze"), ("ΔΑΝΙΗΛ", "Dan"),
   ("ΩΣΗΕ", "Hos"), ("ΙΩΗΛ", "Joe"), ("ΑΜΩΣ", "Amo"), ("ΟΒΔΕΙΟΥ", "Oba"),
   ("ΙΩΝΑΣ", "Jon"), ("ΜΙΧΑΙΑΣ", "Mic"), ("ΝΑΟΥΜ", "Nah"),
   ("ΑΜΒΑΚΟΥΜ", "Hab"), ("ΣΟΦΟΝΙΑΣ", "Zep"), ("ΑΓΓΑΙΟΣ", "Hag"),
   ("ΖΑΧΑΡΙΑΣ", "Zec"), ("ΜΑΛΑΧΙΑΣ", "Mal"), ("ΤΩΒΙΤ", "Tob"),
   ("ΙΟΥΔΙΘ", "Jdt"), ("ΣΟΦΙΑ ΣΑΛΩΜΩΝ", "Wis"), ("ΣΟΦΙΑ ΣΕΙΡΑΧ", "Sir"),
   ("ΒΑΡΟΥΧ", "Bar"), ("ΕΠΙΣΤΟΛΗ ΙΕΡΕΜΙΟΥ", "Epj"), ("ΣΩΣΑΝΝΑ", "Sus"),
   ("ΒΗΛ ΚΑΙ ΔΡΑΚΩΝ", "Bel"), ("ΜΑΚΚΑΒΑΙΩΝ Α", "1Ma"),
   ("ΜΑΚΚΑΒΑΙΩΝ Β", "2Ma"), ("ΜΑΚΚΑΒΑΙΩΝ Γ", "3Ma"),
   ("ΜΑΚΚΑΒΑΙΩΝ Δ", "4Ma"), ("ΠΡΟΣΕΥΧΗ ΜΑΝΑΣΣΗ ΥΙΟΥ ΕΖΕΚΙΟΥ", "Ode")]

/-- Mapping from Brenton Greek book names to Rahlfs book codes. -/
def BRENTON_TO_RAHLFS : List (String × String) :=
  [("ΓΕΝΕΣΙΣ", "Gen"), ("ΕΞΟΔΟΣ", "Exod"), ("ΛΕΥΙΤΙΚΟΝ", "Lev"),
   ("ΑΡΙΘΜΟΙ", "Num"), ("ΔΕΥΤΕΡΟΝΟΜΙΟΝ", "Deut"),
   ("ΙΗΣΟΥΣ ΝΑΥΗ", "JoshB"), ("ΚΡΙΤΑΙ", "JudgB"), ("ΡΟΥΘ", "Ruth"),
   ("ΒΑΣΙΛΕΙΩΝ Α", "1Sam"), ("ΒΑΣΙΛΕΙΩΝ Β", "2Sam"),
   ("ΒΑΣΙΛΕΙΩΝ Γ", "1Kgs"), ("ΒΑΣΙΛΕΙΩΝ Δ", "2Kgs"),
   ("ΠΑΡΑΛΕΙΠΟΜΕΝΩΝ Α", "1Chr"), ("ΠΑΡΑΛΕΙΠΟΜΕΝΩΝ Β", "2Chr"),
   ("ΕΣΔΡΑΣ", "2Esdr"), ("ΝΕΕΜΙΑΣ", "2Esdr"), ("ΕΣΔΡΑΣ Α", "1Esdr"),
   ("ΕΣΘΗΡ", "Esth"), ("ΙΩΒ", "Job"), ("ΨΑΛΜΟΙ", "Ps"),
   ("ΠΑΡΟΙΜΙΑΙ ΣΑΛΩΜΩΝΤΟΣ", "Prov"), ("ΕΚΚΛΗΣΙΑΣΤΗΣ", "Eccl"),
   ("ΑΣΜΑ", "Song"), ("ΗΣΑΙΑΣ", "Isa"), ("ΙΕΡΕΜΙΑΣ", "Jer"),
   ("ΘΡΗΝΟΙ ΙΕΡΕΜΙΟΥ", "Lam"), ("ΙΕΖΕΚΙΗΛ", "Ezek"), ("ΔΑΝΙΗΛ", "DanTh"),
   ("ΩΣΗΕ", "Hos"), ("ΙΩΗΛ", "Joel"), ("ΑΜΩΣ", "Amos"), ("ΟΒΔΕΙΟΥ", "Obad"),
   ("ΙΩΝΑΣ", "Jonah"), ("ΜΙΧΑΙΑΣ", "Mic"), ("ΝΑΟΥΜ", "Nah"),
   ("ΑΜΒΑΚΟΥΜ", "Hab"), ("ΣΟΦΟΝΙΑΣ", "Zeph"), ("ΑΓΓΑΙΟΣ", "Hag"),
   ("ΖΑΧΑΡΙΑΣ", "Zech"), ("ΜΑΛΑΧΙΑΣ", "Mal"), ("ΤΩΒΙΤ", "TobS"),
   ("ΙΟΥΔΙΘ", "Jdt"), ("ΣΟΦΙΑ ΣΑΛΩΜΩΝ", "Wis"), ("ΣΟΦΙΑ ΣΕΙΡΑΧ", "Sir"),
   ("ΒΑΡΟΥΧ", "Bar"), ("ΕΠΙΣΤΟΛΗ ΙΕΡΕΜΙΟΥ", "EpJer"), ("ΣΩΣΑΝΝΑ", "SusTh"),
   ("ΒΗΛ ΚΑΙ ΔΡΑΚΩΝ", "BelTh"), ("ΜΑΚΚΑΒΑΙΩΝ Α", "1Macc"),
   ("ΜΑΚΚΑΒΑΙΩΝ Β", "2Macc"), ("ΜΑΚΚΑΒΑΙΩΝ Γ", "3Macc"),
   ("ΜΑΚΚΑΒΑΙΩΝ Δ", "4Macc"), ("ΠΡΟΣΕΥΧΗ ΜΑΝΑΣΣΗ ΥΙΟΥ ΕΖΕΚΙΟΥ", "Odes")]

/-- `dict.get(key)`. -/
def pyGet (tbl : List (String × String)) (k : String) : Option String :=
  (tbl.find? (fun p => p.1 == k)).map (fun p => p.2)

/-- `convert_brenton_chapter_to_rahlfs`: the ΝΕΕΜΙΑΣ special case renumbers
Nehemiah's chapters by +10 into the combined 2Esdr book; a book missing from
the table raises `ValueError`, modelled as `Except.error`. -/
def convert_brenton_chapter_to_rahlfs (brenton_book : String)
    (brenton_chapter : Int) : Except String (String × Int) :=
  if brenton_book == "ΝΕΕΜΙΑΣ" then Except.ok ("2Esdr", brenton_chapter + 10)
  else
    match pyGet BRENTON_TO_RAHLFS brenton_book with
    | none => Except.error ("Unknown Brenton book: " ++ brenton_book)
    | some rahlfs_book => Except.ok (rahlfs_book, brenton_chapter)

/-- `convert_brenton_chapter_to_swete`: plain table lookup. -/
def convert_brenton_chapter_to_swete (brenton_book : String)
    (brenton_chapter : Int) : Except String (String × Int) :=
  match pyGet BRENTON_TO_SWETE brenton_book with
  | none => Except.error ("Unknown Brenton book: " ++ brenton_book)
  | some swete_book => Except.ok (swete_book, brenton_chapter)

/-- `convert_brenton_reference_to_rahlfs`: "Book.Chapter.Verse"; a raised
`ValueError` from the chapter conversion propagates. -/
def convert_brenton_reference_to_rahlfs (brenton_book : String)
    (chapter verse : Int) : Except String String :=
  match convert_brenton_chapter_to_rahlfs brenton_book chapter with
  | Except.error e => Except.error e
  | Except.ok bc =>
    Except.ok (bc.1 ++ "." ++ toString bc.2 ++ "." ++ toString verse)

/-- `convert_brenton_reference_to_swete`: "Book.Chapter:Verse". -/
def convert_brenton_reference_to_swete (brenton_book : String)
    (chapter verse : Int) : Except String String :=
  match convert_brenton_chapter_to_swete brenton_book chapter with
  | Except.error e => Except.error e
  | Except.ok bc =>
    Except.ok (bc.1 ++ "." ++ toString bc.2 ++ ":" ++ toString verse)

/-! ### `check_missing_words.py`: dictionaries and normalisation -/

/-- Python dict update `d[k] = v`: replace in place when the key exists
(CPython keeps the key's original insertion position), else append. -/
def pyInsert {α β : Type} [BEq α] (d : List (α × β)) (k : α) (v : β) :
    List (α × β) :=
  if d.any (fun p => p.1 == k) then
    d.map (fun p => if p.1 == k then (k, v) else p)
  else d ++ [(k, v)]

/-- Python dict lookup `d.get(k)` (`d[k]` where the key is known present). -/
def pyFind? {α β : Type} [BEq α] (d : List (α × β)) (k : α) : Option β :=
  (d.find? (fun p => p.1 == k)).map (fun p => p.2)

/-- `normalize_for_comparison`: strip spaces, then fold a final sigma ς to a
medial σ at every position except the last. -/
def normalize_for_comparison (text : List Char) : List Char :=
  let t := text.filter (fun c => !(c == ' '))
  t.enum.map (fun ic => if ic.2 == 'ς' && ic.1 < t.length - 1 then 'σ' else ic.2)

/-! ### difflib `SequenceMatcher.ratio` (Ratcliff–Obershelp) -/

def commonPrefixLen : List Char → List Char → Nat
  | a :: as, b :: bs => if a == b then commonPrefixLen as bs + 1 else 0
  | _, _ => 0

/-- difflib `find_longest_match` with no junk (autojunk only affects
sequences of 200 or more elements, far beyond the words compared here):
among all longest common substrings the one starting earliest in `a`, and
among those the one starting earliest in `b`; result `(i, j, size)`. -/
def longestMatch (a b : List Char) : Nat × Nat × Nat :=
  (List.range (a.length + 1)).foldl (fun best i =>
    (List.range (b.length + 1)).foldl (fun best j =>
      let k := commonPrefixLen (a.drop i) (b.drop j)
      if k > best.2.2 then (i, j, k) else best) best)
    (0, 0, 0)

/-- Total matched characters of difflib `get_matching_blocks`: recursively
take the longest match and recurse on the pieces before and after it.  Every
recursive call strictly shrinks `a`, so `a.length` is sufficient fuel and the
fuel never runs out. -/
def rMatchesAux : Nat → List Char → List Char → Nat
  | 0, _, _ => 0
  | fuel + 1, a, b =>
    let m := longestMatch a b
    if m.2.2 = 0 then 0
    else
      m.2.2 + rMatchesAux fuel (a.take m.1) (b.take m.2.1)
        + rMatchesAux fuel (a.drop (m.1 + m.2.2)) (b.drop (m.2.1 + m.2.2))

def rMatches (a b : List Char) : Nat := rMatchesAux a.length a b

/-- difflib `SequenceMatcher(None, a, b).ratio()`: `2·M / (len a + len b)`,
and 1.0 when both inputs are empty.  Scores are exact rationals standing in
for Python floats. -/
def smRatio (a b : List Char) : ℚ :=
  if a.length + b.length = 0 then 1
  else mkRat (2 * rMatches a b) (a.length + b.length)

/-! ### Typo search: `find_best_match` / `find_closest_word` -/

/-- The loop body of `find_best_match`: skip candidates whose
normalise-for-comparison length differs from the target's by more than 2,
otherwise update the state when the ratio strictly improves. -/
def fbmStep (normalized_for_comp : List Char) (target_len : Nat)
    (st : Option (List Char) × ℚ) (kv : List Char × List Char) :
    Option (List Char) × ℚ :=
  let candidate_for_comp := normalize_for_comparison kv.1
  if ((candidate_for_comp.length : Int) - (target_len : Int)).natAbs > 2 then st
  else
    let ratio := smRatio normalized_for_comp candidate_for_comp
    if ratio > st.2 then (some kv.1, ratio) else st

/-- `find_best_match`: scan the dict keys in insertion order; keep the first
candidate attaining each strictly better ratio, starting from
`current_best_ratio` (0 at the original call site). -/
def find_best_match (word_dict : List (List Char × List Char))
    (normalized : List Char) (current_best_ratio : ℚ) :
    Option (List Char) × ℚ :=
  let normalized_for_comp := normalize_for_comparison normalized
  word_dict.foldl (fbmStep normalized_for_comp normalized_for_comp.length)
    (none, current_best_ratio)

/-- Specification-side definitions for the typo-search claim, written from
the spec's words rather than the code: the eligible candidates (length
pre-filter), a candidate's similarity score, and the best score. -/
def eligSpec (word_dict : List (List Char × List Char)) (normalized : List Char) :
    List (List Char × List Char) :=
  word_dict.filter (fun kv =>
    (((normalize_for_comparison kv.1).length : Int) -
      ((normalize_for_comparison normalized).length : Int)).natAbs ≤ 2)

def ratioSpec (normalized : List Char) (kv : List Char × List Char) : ℚ :=
  smRatio (normalize_for_comparison normalized) (normalize_for_comparison kv.1)

/-- The highest similarity score among eligible candidates, floored at the
seed score. -/
def bestSpec (word_dict : List (List Char × List Char)) (normalized : List Char)
    (cb : ℚ) : ℚ :=
  (eligSpec word_dict normalized).foldl
    (fun m kv => max m (ratioSpec normalized kv)) cb

/-- Python truthiness of `best_match_normalized`: `None` and the empty string
are falsy. -/
def truthyOptWord : Option (List Char) → Bool
  | none => false
  | some k => !k.isEmpty

/-- `find_closest_word`: best match must clear 0.80 with a truthy key; if it
does not and the normalised word ends in ε or ι, the search is retried with a
trailing ν, seeding the retry with the first search's best ratio. -/
def find_closest_word (word : List Char)
    (word_dict : List (List Char × List Char)) : Option (List Char) × ℚ :=
  let normalized := strip_diacritics (pyLower word)
  let r1 := find_best_match word_dict normalized 0
  if r1.2 ≥ mkRat 4 5 ∧ truthyOptWord r1.1 = true then
    match r1.1 with
    | some k => (pyFind? word_dict k, r1.2)
    | none => (none, 0)
  else if normalized.getLast? == some 'ε' || normalized.getLast? == some 'ι' then
    let r2 := find_best_match word_dict (normalized ++ ['ν']) r1.2
    if r2.2 ≥ mkRat 4 5 ∧ truthyOptWord r2.1 = true then
      match r2.1 with
      | some k => (pyFind? word_dict k, r2.2)
      | none => (none, 0)
    else (none, 0)
  else (none, 0)

/-- Specification-side match selection: when some eligible candidate strictly
beats the seed score, the winner is the first eligible candidate (in dict
insertion order) attaining the best score; otherwise the accumulator's match
is kept unchanged. -/
def firstBestFrom (word_dict : List (List Char × List Char))
    (normalized : List Char) (m0 : Option (List Char)) (b0 : ℚ) :
    Option (List Char) :=
  if bestSpec word_dict normalized b0 > b0 then
    Option.map (fun kv => kv.1)
      ((eligSpec word_dict normalized).find?
        (fun kv => decide (ratioSpec normalized kv = bestSpec word_dict normalized b0)))
  else m0

/-- Specification-side restatement of `find_closest_word`, written with the
declarative `bestSpec` / `firstBestFrom` in place of the imperative fold: a
typo is declared iff the best score over length-eligible candidates clears
0.80 AND the winning key is truthy (non-empty); on failure, when the
normalised token ends in ε or ι, the whole search is retried with a trailing
ν, seeded with the first search's best score so the higher of the two scores
survives. -/
def fcwSpec (word : List Char)
    (word_dict : List (List Char × List Char)) : Option (List Char) × ℚ :=
  let normalized := strip_diacritics (pyLower word)
  let b1 := bestSpec word_dict normalized 0
  let m1 := firstBestFrom word_dict normalized none 0
  if b1 ≥ mkRat 4 5 ∧ truthyOptWord m1 = true then
    match m1 with
    | some k => (pyFind? word_dict k, b1)
    | none => (none, 0)
  else if normalized.getLast? == some 'ε' || normalized.getLast? == some 'ι' then
    let b2 := bestSpec word_dict (normalized ++ ['ν']) b1
    let m2 := firstBestFrom word_dict (normalized ++ ['ν']) none b1
    if b2 ≥ mkRat 4 5 ∧ truthyOptWord m2 = true then
      match m2 with
      | some k => (pyFind? word_dict k, b2)
      | none => (none, 0)
    else (none, 0)
  else (none, 0)

/-! ### Known-word check -/

/-- `is_word_in_sets`: the module-level dedup indices are passed explicitly;
the word is known when its normalised form, or that form with a trailing ν
appended, is a key of either edition's index. -/
def is_word_in_sets (word : List Char)
    (rahlfsWords sweteWords : List (List Char × List Char)) : Bool :=
  let normalized := strip_diacritics (pyLower word)
  if rahlfsWords.any (fun p => p.1 == normalized) ||
     sweteWords.any (fun p => p.1 == normalized) then true
  else
    let normalized_with_nu := normalized ++ ['ν']
    if rahlfsWords.any (fun p => p.1 == normalized_with_nu) ||
       sweteWords.any (fun p => p.1 == normalized_with_nu) then true
    else false

/-! ### Scoped word lookup -/

/-- Python `range(a, b + 1)` over integers. -/
def intRange (a b : Int) : List Int :=
  (List.range (b + 1 - a).toNat).map (fun k => a + Int.ofNat k)

/-- The `words_in_order` accumulation of `get_words_by_id_range`: the words
present in the ID range, in ID order. -/
def wordsInOrder (start_word_id end_word_id : Int)
    (words_dict : List (Int × (List Char × List Char))) :
    List (List Char × List Char) :=
  (intRange start_word_id end_word_id).filterMap
    (fun word_id => pyFind? words_dict word_id)

/-- `get_words_by_id_range`: the words present in the ID range, in ID order,
plus one synthesized compound entry per consecutive pair (concatenated
normalised key, space-joined original value). -/
def get_words_by_id_range (start_word_id end_word_id : Int)
    (words_dict : List (Int × (List Char × List Char))) :
    List (List Char × List Char) :=
  let words_in_order := wordsInOrder start_word_id end_word_id words_dict
  let result_words := words_in_order.foldl
    (fun acc w => pyInsert acc w.1 w.2) []
  (words_in_order.zip words_in_order.tail).foldl
    (fun acc p => pyInsert acc (p.1.1 ++ p.2.1) (p.1.2 ++ [' '] ++ p.2.2))
    result_words

/-- The linear scan for the verse's index in the pre-sorted list. -/
def findVerseIdx (sorted_verses : List (String × Int)) (verse_ref : String) :
    Option Nat :=
  sorted_verses.findIdx? (fun p => p.1 == verse_ref)

/-- `max(words_dict.keys())` (callers guard against the empty dict). -/
def maxKey (words_dict : List (Int × (List Char × List Char))) : Int :=
  words_dict.foldl (fun m kv => max m kv.1)
    (match words_dict with | [] => 0 | kv :: _ => kv.1)

/-- `get_verse_words`: resolve the verse's word-ID span — from its start ID
to the next verse's start ID minus one, or to the corpus maximum ID for the
last verse — and materialise the words in that span. -/
def get_verse_words (verse_ref : String) (verse_map : List (String × Int))
    (sorted_verses : List (String × Int))
    (words_dict : List (Int × (List Char × List Char))) :
    List (List Char × List Char) :=
  match pyFind? verse_map verse_ref with
  | none => []
  | some start_id =>
    let end_id :=
      match findVerseIdx sorted_verses verse_ref with
      | some i =>
        if i + 1 < sorted_verses.length then
          (sorted_verses.getD (i + 1) ("", 0)).2 - 1
        else if words_dict.isEmpty then start_id else maxKey words_dict
      | none => if words_dict.isEmpty then start_id else maxKey words_dict
    get_words_by_id_range start_id end_id words_dict

/-- `get_area_words`: like `get_verse_words` but spanning `verse_range`
verses on both sides of the current one, clamped to the corpus. -/
def get_area_words (verse_ref : String) (verse_map : List (String × Int))
    (sorted_verses : List (String × Int))
    (words_dict : List (Int × (List Char × List Char))) (verse_range : Nat) :
    List (List Char × List Char) :=
  match pyFind? verse_map verse_ref with
  | none => []
  | some _ =>
    match findVerseIdx sorted_verses verse_ref with
    | none => []
    | some current_idx =>
      let start_verse_idx := current_idx - verse_range
      let end_verse_idx := min (sorted_verses.length - 1) (current_idx + verse_range)
      let start_word_id := (sorted_verses.getD start_verse_idx ("", 0)).2
      let end_word_id :=
        if end_verse_idx + 1 < sorted_verses.length then
          (sorted_verses.getD (end_verse_idx + 1) ("", 0)).2 - 1
        else if words_dict.isEmpty then start_word_id else maxKey words_dict
      get_words_by_id_range start_word_id end_word_id words_dict

/-! ### Scope checks and the match engine -/

/-- `check_words_in_both_sources`: run a check against both editions, prefer
the Rahlfs match when it is found with at least the Swete score. -/
def check_words_in_both_sources (word : List Char)
    (rahlfs_words swete_words : List (List Char × List Char))
    (check_func : List Char → List (List Char × List Char) →
      Bool × Option (List Char) × ℚ) : Bool × Option (List Char) × ℚ :=
  let r := check_func word rahlfs_words
  let s := check_func word swete_words
  if r.1 || s.1 then
    let best_match := if r.1 && decide (r.2.2 ≥ s.2.2) then r.2.1 else s.2.1
    (true, best_match, max r.2.2 s.2.2)
  else (false, none, 0)

/-- The nested loops of `has_legitimate_variation_in_verse`: first variation
(in set order) matching some scope entry under normalise-for-comparison. -/
def findVariationMatch (variations : List (List Char))
    (verse_words : List (List Char × List Char)) : Option (List Char) :=
  variations.findSome? (fun variation =>
    let vn := normalize_for_comparison variation
    verse_words.findSome? (fun kv =>
      if normalize_for_comparison kv.1 == vn then some kv.2 else none))

/-- `has_legitimate_variation_in_verse`; the third component is the count of
generated variations (a Python int, carried here as a rational). -/
def has_legitimate_variation_in_verse (word : List Char)
    (verse_words : List (List Char × List Char)) :
    Bool × Option (List Char) × ℚ :=
  if verse_words.isEmpty then (false, none, 0)
  else
    let variations := generate_variation_list word "all"
    match findVariationMatch variations verse_words with
    | some original_value => (true, some original_value, (variations.length : ℚ))
    | none => (false, none, (variations.length : ℚ))

def check_legitimate_variations_in_scope (word : List Char)
    (rahlfs_words swete_words : List (List Char × List Char)) :
    Bool × Option (List Char) × ℚ :=
  check_words_in_both_sources word rahlfs_words swete_words
    has_legitimate_variation_in_verse

/-- The local `find_typo` closure of `check_typos_in_scope`. -/
def find_typo (w : List Char) (word_dict : List (List Char × List Char)) :
    Bool × Option (List Char) × ℚ :=
  let c := find_closest_word w word_dict
  (decide (c.2 ≥ mkRat 4 5), c.1, c.2)

def check_typos_in_scope (word : List Char)
    (rahlfs_words swete_words : List (List Char × List Char)) :
    Bool × Option (List Char) × ℚ :=
  check_words_in_both_sources word rahlfs_words swete_words find_typo

/-- The module-level loaded indices of `check_missing_words.py`, passed
explicitly instead of read from globals. -/
structure Globals where
  RAHLFS_WORDS_DICT : List (Int × (List Char × List Char))
  SWETE_WORDS_DICT : List (Int × (List Char × List Char))
  RAHLFS_WORDS : List (List Char × List Char)
  SWETE_WORDS : List (List Char × List Char)
  RAHLFS_VERSE_MAP : List (String × Int)
  SWETE_VERSE_MAP : List (String × Int)
  RAHLFS_SORTED_VERSES : List (String × Int)
  SWETE_SORTED_VERSES : List (String × Int)

/-- `is_likely_typo`'s result tuple:
`(is_typo, closest_match, similarity, verse_match, area_match,
legitimate_variation)`. -/
abbrev TypoResult := Bool × Option (List Char) × ℚ × Bool × Bool × Bool

/-- The corpus-wide fallback search at the bottom of `is_likely_typo`. -/
def corpusFallback (word : List Char) (g : Globals) : TypoResult :=
  let t := check_typos_in_scope word g.RAHLFS_WORDS g.SWETE_WORDS
  if t.1 then (true, t.2.1, t.2.2, false, false, false)
  else (false, none, 0, false, false, false)

/-- The `try` block of `is_likely_typo`: coordinate conversion (which can
signal a lookup error), then the verse-scope checks, then the ±20-verse
area-scope checks; `none` means fall through to the corpus-wide search. -/
def tryScopedSearch (word : List Char) (book : String) (ch vs : Int)
    (g : Globals) : Except String (Option TypoResult) :=
  match convert_brenton_reference_to_rahlfs book ch vs with
  | Except.error e => Except.error e
  | Except.ok rahlfs_ref =>
    match convert_brenton_reference_to_swete book ch vs with
    | Except.error e => Except.error e
    | Except.ok swete_ref =>
      let rvw := get_verse_words rahlfs_ref g.RAHLFS_VERSE_MAP
        g.RAHLFS_SORTED_VERSES g.RAHLFS_WORDS_DICT
      let svw := get_verse_words swete_ref g.SWETE_VERSE_MAP
        g.SWETE_SORTED_VERSES g.SWETE_WORDS_DICT
      let verseStep : Option TypoResult :=
        if !rvw.isEmpty || !svw.isEmpty then
          let hv := check_legitimate_variations_in_scope word rvw svw
          if hv.1 then some (false, hv.2.1, 1, true, false, true)
          else
            let ty := check_typos_in_scope word rvw svw
            if ty.1 then some (true, ty.2.1, ty.2.2, true, false, false)
            else none
        else none
      match verseStep with
      | some r => Except.ok (some r)
      | none =>
        let raw := get_area_words rahlfs_ref g.RAHLFS_VERSE_MAP
          g.RAHLFS_SORTED_VERSES g.RAHLFS_WORDS_DICT 20
        let saw := get_area_words swete_ref g.SWETE_VERSE_MAP
          g.SWETE_SORTED_VERSES g.SWETE_WORDS_DICT 20
        if !raw.isEmpty || !saw.isEmpty then
          let hv := check_legitimate_variations_in_scope word raw saw
          if hv.1 then Except.ok (some (false, hv.2.1, 1, false, true, true))
          else
            let ty := check_typos_in_scope word raw saw
            if ty.1 then Except.ok (some (true, ty.2.1, ty.2.2, false, true, false))
            else Except.ok none
        else Except.ok none

/-- The `all([...])` guard of `is_likely_typo` over Python truthiness:
non-None and nonempty book name, nonzero chapter and verse, nonempty loaded
indices. -/
def allTruthy (book : String) (ch vs : Int) (g : Globals) : Bool :=
  !(book == "") && !(ch == 0) && !(vs == 0) &&
  !g.RAHLFS_VERSE_MAP.isEmpty && !g.SWETE_VERSE_MAP.isEmpty &&
  !g.RAHLFS_SORTED_VERSES.isEmpty && !g.SWETE_SORTED_VERSES.isEmpty &&
  !g.RAHLFS_WORDS_DICT.isEmpty && !g.SWETE_WORDS_DICT.isEmpty

/-- The body of `is_likely_typo` once the context arguments are known to be
present: verse scope, then area scope, then corpus-wide fallback; a
conversion failure (caught `ValueError`) skips straight to the fallback. -/
def isLikelyTypoCore (word : List Char) (book : String) (ch vs : Int)
    (g : Globals) : TypoResult :=
  if allTruthy book ch vs g then
    match tryScopedSearch word book ch vs g with
    | Except.ok (some r) => r
    | Except.ok none => corpusFallback word g
    | Except.error _ => corpusFallback word g
  else corpusFallback word g

/-- `is_likely_typo`: a `None` among the context arguments makes the
`all([...])` guard fail, leaving only the corpus-wide fallback. -/
def is_likely_typo (word : List Char) (brenton_book : Option String)
    (brenton_ch brenton_vs : Option Int) (g : Globals) : TypoResult :=
  match brenton_book, brenton_ch, brenton_vs with
  | some book, some ch, some vs => isLikelyTypoCore word book ch vs g
  | _, _, _ => corpusFallback word g

/-! ### Index loading (`load_words_with_ids`, `load_versification`) -/

def digitsToNat (ds : List Char) : Nat :=
  ds.foldl (fun n c => n * 10 + (c.toNat - '0'.toNat)) 0

/-- Python `int(s)`: optional surrounding spaces, optional sign, decimal
digits; `none` models the raised `ValueError`. -/
def pyParseInt (s : List Char) : Option Int :=
  let t := ((s.dropWhile (fun c => c == ' ')).reverse.dropWhile
    (fun c => c == ' ')).reverse
  match t with
  | '-' :: ds =>
    if ds ≠ [] ∧ ds.all Char.isDigit then some (-(digitsToNat ds : Int)) else none
  | '+' :: ds =>
    if ds ≠ [] ∧ ds.all Char.isDigit then some (digitsToNat ds : Int) else none
  | ds =>
    if ds ≠ [] ∧ ds.all Char.isDigit then some (digitsToNat ds : Int) else none

/-- The row loop of `load_words_with_ids` over already-parsed CSV rows.  A
row with fewer than 2 columns is skipped; a row whose first column fails
`int()` raises, and the surrounding `except` aborts the loop, so the rows
accumulated so far are returned and the rest of the file is dropped.  The
word is the last column; `normalize_text` (NFC) is the identity on the
modelled repertoire. -/
def load_words_with_ids_rows : List (List String) →
    List (Int × (List Char × List Char)) → List (Int × (List Char × List Char))
  | [], acc => acc
  | row :: rest, acc =>
    if row.length ≥ 2 then
      match pyParseInt (row.headD "").data with
      | none => acc
      | some word_id =>
        let word := (row.getLastD "").data
        load_words_with_ids_rows rest
          (pyInsert acc word_id (strip_diacritics (pyLower word), pyLower word))
    else load_words_with_ids_rows rest acc

def load_words_with_ids (rows : List (List String)) :
    List (Int × (List Char × List Char)) :=
  load_words_with_ids_rows rows []

/-- The row loop of `load_versification`: column order auto-detected per row
by trying `int()` on the first column; if both columns fail to parse the
second `int()` raises and the surrounding `except` aborts the loop. -/
def load_versification_rows : List (List String) →
    List (String × Int) → List (String × Int)
  | [], acc => acc
  | row :: rest, acc =>
    if row.length ≥ 2 then
      match pyParseInt (row.headD "").data with
      | some word_id =>
        load_versification_rows rest (pyInsert acc (row.getD 1 "") word_id)
      | none =>
        match pyParseInt (row.getD 1 "").data with
        | some word_id =>
          load_versification_rows rest (pyInsert acc (row.headD "") word_id)
        | none => acc
    else load_versification_rows rest acc

/-- `load_versification`'s verse map (the derived sorted list is a pure
post-processing step not needed by the claims about loading). -/
def load_versification (rows : List (List String)) : List (String × Int) :=
  load_versification_rows rows []

/-! ### Concrete test fixtures used by the claims -/

/-- C5 fixture: a corpus with word-IDs 10 through 50 (maximum ID 50), each
word's normalised and original form being its ID's decimal digits. -/
def wordsC5 : List (Int × (List Char × List Char)) :=
  (List.range 41).map (fun k =>
    ((10 + k : Int), ((toString (10 + k)).data, (toString (10 + k)).data)))

/-- C5 fixture: versification with verse start word-IDs 10, 20 and 35. -/
def versesC5 : List (String × Int) := [("A", 10), ("B", 20), ("C", 35)]

/-- C6 fixture: three ID-adjacent words whose normalised forms coincide (α)
while the middle original carries an accent, so the two synthesized compound
entries collide on the key αα with different values. -/
def wordsC6 : List (Int × (List Char × List Char)) :=
  [(5, ("α".data, "α".data)), (6, ("α".data, "ά".data)),
   (7, ("α".data, "α".data))]

/-- C6 fixture: the claim's positive instance, adjacent words περι and
τεμειν. -/
def wordsC6pos : List (Int × (List Char × List Char)) :=
  [(5, ("περι".data, "περι".data)), (6, ("τεμειν".data, "τεμειν".data))]

/-- C8 and C10 fixture: a one-word Rahlfs corpus (ηη at word-ID 1, verse
Gen.1.1) and a disjoint one-word Swete corpus. -/
def globalsFix : Globals :=
  { RAHLFS_WORDS_DICT := [(1, ("ηη".data, "ηη".data))]
    SWETE_WORDS_DICT := [(1, ("ψψ".data, "ψψ".data))]
    RAHLFS_WORDS := [("ηη".data, "ηη".data)]
    SWETE_WORDS := [("ψψ".data, "ψψ".data)]
    RAHLFS_VERSE_MAP := [("Gen.1.1", 1)]
    SWETE_VERSE_MAP := [("X.9:9", 1)]
    RAHLFS_SORTED_VERSES := [("Gen.1.1", 1)]
    SWETE_SORTED_VERSES := [("X.9:9", 1)] }

/-- C10 area fixture: two Rahlfs verses; the token's verse (Gen.1.2) holds
only χχ while the neighbouring verse holds ηη, so the legitimate-variation
match for εε succeeds only at area scope. -/
def globalsAreaFix : Globals :=
  { RAHLFS_WORDS_DICT := [(1, ("ηη".data, "ηη".data)), (2, ("χχ".data, "χχ".data))]
    SWETE_WORDS_DICT := [(1, ("ψψ".data, "ψψ".data))]
    RAHLFS_WORDS := [("ηη".data, "ηη".data), ("χχ".data, "χχ".data)]
    SWETE_WORDS := [("ψψ".data, "ψψ".data)]
    RAHLFS_VERSE_MAP := [("Gen.1.1", 1), ("Gen.1.2", 2)]
    SWETE_VERSE_MAP := [("X.9:9", 1)]
    RAHLFS_SORTED_VERSES := [("Gen.1.1", 1), ("Gen.1.2", 2)]
    SWETE_SORTED_VERSES := [("X.9:9", 1)] }

/-- A character is plain when it is fixed by case folding, is its own NFD
decomposition and is not a combining mark; every character produced by
`strip_accents(word.lower())` is plain, which yields idempotence of that
normalisation. -/
def plainB (c : Char) : Bool :=
  lowerChar c == c && nfdChar c == [c] && !isCombiningMark c

/-! ### Monotonicity of the variant-set pipeline

Every pass of `generate_variation_list` keeps each already-accumulated
variant (`new_variations.add(var)` runs for every member), so membership is
preserved from stage to stage. -/

theorem mem_insertUniq_self (l : List (List Char)) (x : List Char) :
    x ∈ insertUniq l x := by
  unfold insertUniq
  split
  · assumption
  · simp

theorem mem_insertUniq_of_mem {l : List (List Char)} {y : List Char}
    (x : List Char) (h : y ∈ l) : y ∈ insertUniq l x := by
  unfold insertUniq
  split
  · exact h
  · simp [h]

theorem foldl_preserve {α : Type} {f : List (List Char) → α → List (List Char)}
    {y : List Char} (hf : ∀ a x, y ∈ a → y ∈ f a x) :
    ∀ (l : List α) {a : List (List Char)}, y ∈ a → y ∈ l.foldl f a := by
  intro l
  induction l with
  | nil => intro a h; simpa using h
  | cons x t ih =>
    intro a h
    simpa using ih (hf a x h)

theorem foldl_attain {α : Type} {f : List (List Char) → α → List (List Char)}
    {y : List Char} {x : α} (hf : ∀ a x', y ∈ a → y ∈ f a x')
    (hx : ∀ a, y ∈ f a x) :
    ∀ (l : List α) {a : List (List Char)}, x ∈ l → y ∈ l.foldl f a := by
  intro l
  induction l with
  | nil => intro a h; cases h
  | cons v t ih =>
    intro a h
    rcases List.mem_cons.mp h with rfl | h
    · simpa using foldl_preserve hf t (hx a)
    · simpa using ih h

theorem mem_addPatVariants_of_mem_start {pats : List (List Char × List Char)}
    {var y : List Char} {acc : List (List Char)} (h : y ∈ insertUniq acc var) :
    y ∈ addPatVariants pats var acc := by
  unfold addPatVariants
  refine foldl_preserve ?_ pats h
  intro a p hy
  dsimp only
  repeat' first
    | exact hy
    | apply mem_insertUniq_of_mem
    | split

theorem mem_addPatVariants_acc {pats : List (List Char × List Char)}
    {var y : List Char} {acc : List (List Char)} (h : y ∈ acc) :
    y ∈ addPatVariants pats var acc :=
  mem_addPatVariants_of_mem_start (mem_insertUniq_of_mem _ h)

theorem mem_addPatVariants_var {pats : List (List Char × List Char)}
    {var : List Char} {acc : List (List Char)} :
    var ∈ addPatVariants pats var acc :=
  mem_addPatVariants_of_mem_start (mem_insertUniq_self _ _)

theorem mem_applyPats {pats : List (List Char × List Char)}
    {cur : List (List Char)} {y : List Char} (h : y ∈ cur) :
    y ∈ applyPats pats cur := by
  unfold applyPats
  exact @foldl_attain (List Char)
    (fun acc var => addPatVariants pats var acc) y y
    (fun a v hy => mem_addPatVariants_acc hy)
    (fun a => mem_addPatVariants_var) cur [] h

theorem mem_addGroupVariants_of_mem_start {groups : List (List (List Char))}
    {var y : List Char} {acc : List (List Char)} (h : y ∈ insertUniq acc var) :
    y ∈ addGroupVariants groups var acc := by
  unfold addGroupVariants
  refine foldl_preserve ?_ groups h
  intro a g hy
  dsimp only
  repeat' first
    | exact hy
    | apply mem_insertUniq_of_mem
    | split

theorem mem_applyGroups {groups : List (List (List Char))}
    {cur : List (List Char)} {y : List Char} (h : y ∈ cur) :
    y ∈ applyGroups groups cur := by
  unfold applyGroups
  exact @foldl_attain (List Char)
    (fun acc var => addGroupVariants groups var acc) y y
    (fun a v hy => mem_addGroupVariants_of_mem_start (mem_insertUniq_of_mem _ hy))
    (fun a => mem_addGroupVariants_of_mem_start (mem_insertUniq_self _ _)) cur [] h

theorem mem_setCopy {cur : List (List Char)} {y : List Char} (h : y ∈ cur) :
    y ∈ setCopy cur := by
  unfold setCopy
  exact @foldl_attain (List Char) insertUniq y y
    (fun a x hy => mem_insertUniq_of_mem _ hy)
    (fun a => mem_insertUniq_self _ _) cur [] h

theorem mem_movableNu {cur : List (List Char)} {y : List Char} (h : y ∈ cur) :
    y ∈ movableNu cur := by
  unfold movableNu
  refine foldl_preserve ?_ cur (mem_setCopy h)
  intro a var hy
  dsimp only
  split
  · exact mem_insertUniq_of_mem _ hy
  · split
    · exact mem_insertUniq_of_mem _ hy
    · exact hy

theorem stagePats {y : List Char} {cur : List (List Char)}
    (P : List (List Char × List Char)) (b : Bool) (h : y ∈ cur) :
    y ∈ (if b then applyPats P cur else cur) := by
  split
  · exact mem_applyPats h
  · exact h

theorem stagePats2 {y : List Char} {cur : List (List Char)}
    (P Q : List (List Char × List Char)) (b : Bool) (h : y ∈ cur) :
    y ∈ (if b then applyPats P (applyPats Q cur) else cur) := by
  split
  · exact mem_applyPats (mem_applyPats h)
  · exact h

theorem stagePats3 {y : List Char} {cur : List (List Char)}
    (P Q R : List (List Char × List Char)) (b : Bool) (h : y ∈ cur) :
    y ∈ (if b then applyPats P (applyPats Q (applyPats R cur)) else cur) := by
  split
  · exact mem_applyPats (mem_applyPats (mem_applyPats h))
  · exact h

theorem stageGroups {y : List Char} {cur : List (List Char)}
    (G : List (List (List Char))) (b : Bool) (h : y ∈ cur) :
    y ∈ (if b then applyGroups G cur else cur) := by
  split
  · exact mem_applyGroups h
  · exact h

/-- The word's own normalised form is always a member of its variation list:
it is the seed of the accumulation and every pass keeps existing members. -/
theorem norm_mem_generate (base : List Char) (vt : String) :
    strip_accents (pyLower base) ∈ generate_variation_list base vt := by
  simp only [generate_variation_list]
  apply mem_movableNu
  apply stagePats
  apply stageGroups
  apply stagePats
  apply stagePats3
  apply stagePats3
  apply stagePats
  apply stagePats
  apply stagePats
  apply stagePats
  apply stagePats
  apply stagePats2
  exact List.mem_singleton.mpr rfl

/-! ### Idempotence of `strip_accents(word.lower())`

The output characters of the normalisation are plain: fixed by case folding,
trivially NFD-decomposed and not combining marks.  This is a finite check on
the tables plus the identity default. -/

theorem lowerTable_plain_outputs :
    lowerTable.all (fun p => (nfdChar p.2).all
      (fun c => isCombiningMark c || plainB c)) = true := by decide

theorem nfdTable_plain_outputs :
    nfdTable.all (fun p => p.2.all
      (fun c => isCombiningMark c || plainB c)) = true := by decide

theorem stripLower_char_plain (a : Char) :
    ∀ c ∈ nfdChar (lowerChar a), isCombiningMark c = false → plainB c = true := by
  intro c hc hm
  unfold lowerChar at hc
  cases hf : lowerTable.find? (fun p => p.1 == a) with
  | some p =>
    rw [hf] at hc
    have hmem := List.mem_of_find?_eq_some hf
    have h1 := List.all_eq_true.mp lowerTable_plain_outputs p hmem
    have h2 := List.all_eq_true.mp h1 c hc
    simpa [hm] using h2
  | none =>
    rw [hf] at hc
    unfold nfdChar at hc
    cases hg : nfdTable.find? (fun p => p.1 == a) with
    | some q =>
      rw [hg] at hc
      have hmem := List.mem_of_find?_eq_some hg
      have h1 := List.all_eq_true.mp nfdTable_plain_outputs q hmem
      have h2 := List.all_eq_true.mp h1 c hc
      simpa [hm] using h2
    | none =>
      rw [hg] at hc
      simp only [List.mem_singleton] at hc
      subst hc
      simp only [plainB, Bool.and_eq_true, beq_iff_eq, Bool.not_eq_true']
      refine ⟨⟨?_, ?_⟩, hm⟩
      · unfold lowerChar
        rw [hf]
      · unfold nfdChar
        rw [hg]

theorem mem_strip_lower_plain {w : List Char} {c : Char}
    (h : c ∈ strip_accents (pyLower w)) : plainB c = true := by
  unfold strip_accents pyLower at h
  simp only [List.mem_filter, List.mem_flatten, List.mem_map,
    Bool.not_eq_true'] at h
  obtain ⟨⟨l, ⟨b, hb, rfl⟩, hcl⟩, hmark⟩ := h
  obtain ⟨a, ha, rfl⟩ := hb
  exact stripLower_char_plain a c hcl hmark

theorem strip_lower_plain_fix {l : List Char}
    (h : ∀ c ∈ l, plainB c = true) : strip_accents (pyLower l) = l := by
  induction l with
  | nil => rfl
  | cons c t ih =>
    have hc := h c (by simp)
    have ht := ih (fun d hd => h d (by simp [hd]))
    simp only [plainB, Bool.and_eq_true, beq_iff_eq, Bool.not_eq_true'] at hc
    obtain ⟨⟨hlo, hnf⟩, hmk⟩ := hc
    unfold strip_accents pyLower at ht ⊢
    simp only [List.map_cons, List.flatten_cons, List.filter_append,
      hlo, hnf]
    simp only [List.filter, hmk, Bool.not_false]
    rw [ht]
    rfl

theorem strip_lower_idem (w : List Char) :
    strip_accents (pyLower (strip_accents (pyLower w))) =
      strip_accents (pyLower w) :=
  strip_lower_plain_fix (fun _ hc => mem_strip_lower_plain hc)

/-- Generation only depends on the normalised form of its input. -/
theorem generate_norm_eq (base : List Char) (vt : String) :
    generate_variation_list (strip_accents (pyLower base)) vt =
      generate_variation_list base vt := by
  simp only [generate_variation_list, strip_lower_idem]

/-! ### Claim C1 -/

/-- C1 counterexample: `generate_variation_list` is not idempotent under
re-application to its own output.  For W = "εο" with the "all" category
selector, "ηο" is in the first-pass set (via the ablaut rule ε→η), a second
pass on "ηο" produces "ηω" (via the ablaut rule ο→ω), but "ηω" is not in the
first-pass set — the categories are applied in one fixed sequence, and an
ablaut substitution produced by a later position of the pipeline is never fed
back into an earlier one. -/
theorem C1_counterexample :
    "ηο".data ∈ generate_variation_list "εο".data "all" ∧
    "ηω".data ∈ generate_variation_list "ηο".data "all" ∧
    "ηω".data ∉ generate_variation_list "εο".data "all" := by decide

/-- C1 amended: a second pass never loses forms.  Every member of
`generate_variations(W, C)` is reproduced by applying `generate_variations`
to some member of that set (namely W's own normalised form, which is always a
member and regenerates the whole set), so the union over a second pass is a
superset of the first-pass set; by `C1_counterexample` it can be a strict
superset, so the claimed equality fails. -/
theorem C1_second_pass_superset (W : List Char) (C : String) (x : List Char)
    (hx : x ∈ generate_variation_list W C) :
    ∃ v ∈ generate_variation_list W C, x ∈ generate_variation_list v C := by
  refine ⟨strip_accents (pyLower W), norm_mem_generate W C, ?_⟩
  rw [generate_norm_eq]
  exact hx

/-- Witness for `C1_second_pass_superset` at the concrete input W = "εο",
C = "all", x = "ηο". -/
theorem C1_second_pass_superset_witness :
    ∃ v ∈ generate_variation_list "εο".data "all",
      "ηο".data ∈ generate_variation_list v "all" :=
  C1_second_pass_superset "εο".data "all" "ηο".data (by decide)

/-! ### Claim C2 -/

/-- C2 counterexample: `is_likely_legitimate_variation` is not symmetric.
For A = "οω" and B = "ωω" the directed ablaut check fires ("οω" with every ο
replaced by ω equals "ωω"), but on the swapped pair no directed rule applies
("ωω" contains no rule's left side that rewrites to "οω"; replacement of all
occurrences of ω by ο gives "οο", not "οω") and the catch-all fails because
"οω" is not in `generate_variation_list("ωω", "all")`. -/
theorem C2_counterexample :
    (is_likely_legitimate_variation "οω".data "ωω".data).1 = true ∧
    (is_likely_legitimate_variation "ωω".data "οω".data).1 = false := by decide

/-- C2 amended: symmetry does hold whenever the reverse direction is
supported by the variant generator — if `is_pairwise_variation(A, B)` is true
and A's normalised form lies in `generate_variations(B, "all")`, then
`is_pairwise_variation(B, A)` is true (the catch-all of the swapped call
accepts it, if no earlier check already has).  By `C2_counterexample` the
extra hypothesis cannot be dropped. -/
theorem C2_symmetry_of_reverse_generates (A B : List Char)
    (h1 : (is_likely_legitimate_variation A B).1 = true)
    (h2 : strip_accents (pyLower A) ∈ generate_variation_list B "all") :
    (is_likely_legitimate_variation B A).1 = true := by
  simp only [is_likely_legitimate_variation]
  repeat' split
  all_goals simp_all

/-- Witness for `C2_symmetry_of_reverse_generates` at A = "εε", B = "ηη"
(the forward direction fires the directed ablaut check; the reverse holds via
the catch-all). -/
theorem C2_symmetry_witness :
    (is_likely_legitimate_variation "ηη".data "εε".data).1 = true :=
  C2_symmetry_of_reverse_generates "εε".data "ηη".data (by decide) (by decide)

/-! ### Claim C7 -/

/-- C7: for every chapter c and verse v, the Brenton reference (ΝΕΕΜΙΑΣ, c, v)
converts to the combined Rahlfs book 2Esdr at chapter c + 10 (Ezra's ten
chapters are added before lookup) — in particular ΝΕΕΜΙΑΣ chapter 1 becomes
2Esdr chapter 11 — while ΕΣΔΡΑΣ chapters map to 2Esdr with the chapter number
unchanged. -/
theorem C7_nehemiah_chapter_offset (c v : Int) :
    convert_brenton_chapter_to_rahlfs "ΝΕΕΜΙΑΣ" c = Except.ok ("2Esdr", c + 10) ∧
    convert_brenton_reference_to_rahlfs "ΝΕΕΜΙΑΣ" c v =
      Except.ok ("2Esdr." ++ toString (c + 10) ++ "." ++ toString v) ∧
    convert_brenton_chapter_to_rahlfs "ΝΕΕΜΙΑΣ" 1 = Except.ok ("2Esdr", 11) ∧
    convert_brenton_chapter_to_rahlfs "ΕΣΔΡΑΣ" c = Except.ok ("2Esdr", c) := by
  refine ⟨rfl, rfl, rfl, ?_⟩
  simp only [convert_brenton_chapter_to_rahlfs]
  rfl

/-! ### Claim C3 -/

/-- C3 counterexample: the known-word check never strips a trailing ν.  The
normalised form "λυεν" ends in εν, and the corpus index contains exactly its
ν-stripped form "λυε" (= "λυεν" minus its last character), yet the check
fails — `is_word_in_sets` only tries the form itself and the form with a ν
appended. -/
theorem C3_counterexample :
    ("λυεν".data).dropLast = "λυε".data ∧
    is_word_in_sets "λυεν".data [("λυε".data, "λυε".data)] [] = false := by
  decide

/-- C3 amended: the ν-appending half of the round trip holds — a normalised
form (in particular one ending in ε or ι) is classified KNOWN when the
corpus index contains the form with a trailing ν appended; but a form ending
in εν or ιν is only classified KNOWN when the corpus contains the form
itself: the check never strips the ν, so a corpus holding only the stripped
form is not matched (see `C3_counterexample`). -/
theorem C3_movable_nu_amended (w : List Char)
    (R S : List (List Char × List Char))
    (hnorm : strip_diacritics (pyLower w) = w) :
    ((w.getLast? = some 'ε' ∨ w.getLast? = some 'ι') →
      R.any (fun p => p.1 == w ++ ['ν']) = true →
      is_word_in_sets w R S = true) ∧
    ((("εν".data).isSuffixOf w || ("ιν".data).isSuffixOf w) = true →
      R.any (fun p => p.1 == w) = true →
      is_word_in_sets w R S = true) := by
  constructor
  · intro _ hmem
    simp only [is_word_in_sets, hnorm]
    split
    · rfl
    · simp [hmem]
  · intro _ hmem
    simp only [is_word_in_sets, hnorm]
    split
    · rfl
    · simp_all

/-- Witness for `C3_movable_nu_amended`: the ε-ending form "λυε" is known in
a corpus holding "λυεν", and the εν-ending form "λαβεν" is known in a corpus
holding "λαβεν" itself. -/
theorem C3_movable_nu_amended_witness :
    is_word_in_sets "λυε".data [("λυεν".data, "λυεν".data)] [] = true ∧
    is_word_in_sets "λαβεν".data [("λαβεν".data, "λαβεν".data)] [] = true :=
  ⟨(C3_movable_nu_amended "λυε".data [("λυεν".data, "λυεν".data)] []
      (by decide)).1 (by decide) (by decide),
   (C3_movable_nu_amended "λαβεν".data [("λαβεν".data, "λαβεν".data)] []
      (by decide)).2 (by decide) (by decide)⟩

/-! ### Claim C5 -/

/-- C5: with verse start word-IDs 10, 20, 35 and corpus maximum word-ID 50,
the verse scope of the verse starting at ID 20 resolves exactly the ID range
20–34, the scope of the last verse (ID 35) resolves exactly 35–50, and an
unknown verse reference yields the empty map.  The boundary membership facts
make the "exactly" explicit: 20 and 34 are present in the first scope while
19 and 35 are not, and 35 and 50 are present in the last scope. -/
theorem C5_verse_scope_bounds :
    maxKey wordsC5 = 50 ∧
    get_verse_words "B" versesC5 versesC5 wordsC5 =
      get_words_by_id_range 20 34 wordsC5 ∧
    get_verse_words "C" versesC5 versesC5 wordsC5 =
      get_words_by_id_range 35 50 wordsC5 ∧
    pyFind? (get_verse_words "B" versesC5 versesC5 wordsC5) "20".data =
      some "20".data ∧
    pyFind? (get_verse_words "B" versesC5 versesC5 wordsC5) "34".data =
      some "34".data ∧
    pyFind? (get_verse_words "B" versesC5 versesC5 wordsC5) "19".data = none ∧
    pyFind? (get_verse_words "B" versesC5 versesC5 wordsC5) "35".data = none ∧
    pyFind? (get_verse_words "C" versesC5 versesC5 wordsC5) "35".data =
      some "35".data ∧
    pyFind? (get_verse_words "C" versesC5 versesC5 wordsC5) "50".data =
      some "50".data ∧
    get_verse_words "X" versesC5 versesC5 wordsC5 = [] := by
  set_option maxRecDepth 40000 in decide

/-! ### Claim C9 -/

/-- C9 counterexample: a row whose word-ID column is not an integer is not
skipped locally — the raised `ValueError` is caught by the `except` wrapped
around the whole read loop, so the remaining well-formed rows of the file are
dropped.  Loading `[["abc", "w1"], ["2", "w2"]]` yields an empty index even
though the second row alone loads fine. -/
theorem C9_counterexample :
    load_words_with_ids [["abc", "w1"], ["2", "w2"]] = [] ∧
    load_words_with_ids [["2", "w2"]] ≠ [] := by decide

/-- Both loaders advance over a short row without touching the index. -/
theorem loaders_skip_short_row (r : List String) (hr : r.length < 2) :
    (∀ rest acc, load_words_with_ids_rows (r :: rest) acc =
      load_words_with_ids_rows rest acc) ∧
    (∀ rest acc, load_versification_rows (r :: rest) acc =
      load_versification_rows rest acc) := by
  constructor <;> intro rest acc
  · simp only [load_words_with_ids_rows]
    rw [if_neg (by omega)]
  · simp only [load_versification_rows]
    rw [if_neg (by omega)]

/-- Whatever two row suffixes do, prepending the same prefix keeps the word
loader's results equal (the prefix either processes rows identically on both
sides or aborts identically on both sides). -/
theorem lw_rows_congr (X Y : List (List String))
    (h : ∀ acc, load_words_with_ids_rows X acc = load_words_with_ids_rows Y acc) :
    ∀ (pre : List (List String)) (acc : List (Int × (List Char × List Char))),
      load_words_with_ids_rows (pre ++ X) acc =
        load_words_with_ids_rows (pre ++ Y) acc := by
  intro pre
  induction pre with
  | nil => intro acc; exact h acc
  | cons row rest ih =>
    intro acc
    simp only [List.cons_append, load_words_with_ids_rows]
    split
    · split
      · rfl
      · exact ih _
    · exact ih _

/-- The same prefix-congruence for the versification loader. -/
theorem lv_rows_congr (X Y : List (List String))
    (h : ∀ acc, load_versification_rows X acc = load_versification_rows Y acc) :
    ∀ (pre : List (List String)) (acc : List (String × Int)),
      load_versification_rows (pre ++ X) acc =
        load_versification_rows (pre ++ Y) acc := by
  intro pre
  induction pre with
  | nil => intro acc; exact h acc
  | cons row rest ih =>
    intro acc
    simp only [List.cons_append, load_versification_rows]
    split
    · split
      · exact ih _
      · split
        · exact ih _
        · rfl
    · exact ih _

/-- C9 amended: a row with fewer than 2 columns is indeed skipped locally
and all remaining well-formed rows still load, in both loaders; but a row
with a non-integer word-ID (for the versification loader: with no integer in
either column) aborts the remainder of that file's load — the rows already
read are kept and the run does not crash, while every row after the bad one
is dropped (see `C9_counterexample`). -/
theorem C9_malformed_row_amended (pre post : List (List String)) (r : List String) :
    (r.length < 2 →
      load_words_with_ids (pre ++ r :: post) = load_words_with_ids (pre ++ post) ∧
      load_versification (pre ++ r :: post) = load_versification (pre ++ post)) ∧
    (2 ≤ r.length → pyParseInt (r.headD "").data = none →
      load_words_with_ids (pre ++ r :: post) = load_words_with_ids pre) ∧
    (2 ≤ r.length → pyParseInt (r.headD "").data = none →
      pyParseInt (r.getD 1 "").data = none →
      load_versification (pre ++ r :: post) = load_versification pre) := by
  refine ⟨fun hlen => ⟨?_, ?_⟩, fun hlen hid => ?_, fun hlen hid hid2 => ?_⟩
  · exact lw_rows_congr (r :: post) post
      (fun acc => (loaders_skip_short_row r hlen).1 post acc) pre []
  · exact lv_rows_congr (r :: post) post
      (fun acc => (loaders_skip_short_row r hlen).2 post acc) pre []
  · have habort : ∀ acc, load_words_with_ids_rows (r :: post) acc =
        load_words_with_ids_rows [] acc := by
      intro acc
      simp only [load_words_with_ids_rows]
      rw [if_pos hlen, hid]
    have := lw_rows_congr (r :: post) [] habort pre []
    simpa [load_words_with_ids] using this
  · have habort : ∀ acc, load_versification_rows (r :: post) acc =
        load_versification_rows [] acc := by
      intro acc
      simp only [load_versification_rows]
      rw [if_pos hlen, hid, hid2]
    have := lv_rows_congr (r :: post) [] habort pre []
    simpa [load_versification] using this

/-- Witness for `C9_malformed_row_amended` at concrete rows: a short row is
skipped between two good rows, and a non-integer-ID row drops the rest of
the file. -/
theorem C9_malformed_row_amended_witness :
    load_words_with_ids [["1", "a"], ["x"], ["2", "b"]] =
      load_words_with_ids [["1", "a"], ["2", "b"]] ∧
    load_words_with_ids [["1", "a"], ["abc", "w"], ["2", "b"]] =
      load_words_with_ids [["1", "a"]] :=
  ⟨((C9_malformed_row_amended [["1", "a"]] [["2", "b"]] ["x"]).1
      (by decide)).1,
   (C9_malformed_row_amended [["1", "a"]] [["2", "b"]] ["abc", "w"]).2.1
      (by decide) (by decide)⟩

/-! ### Claim C8 -/

/-- C8: for any token whose verse context names a book unknown to the
mapping tables, the coordinate conversion signals a lookup error, and the
classification of that token is exactly the corpus-wide fallback check — the
verse-scope and area-scope searches are disabled for it, no fault escapes
(`is_likely_typo` is total and equals `corpusFallback`). -/
theorem C8_unknown_book_fallback (word : List Char) (book : String)
    (ch vs : Option Int) (g : Globals) (c : Int)
    (hbook : pyGet BRENTON_TO_RAHLFS book = none)
    (hneh : book ≠ "ΝΕΕΜΙΑΣ") :
    convert_brenton_chapter_to_rahlfs book c =
      Except.error ("Unknown Brenton book: " ++ book) ∧
    is_likely_typo word (some book) ch vs g = corpusFallback word g := by
  have hcv : ∀ c' : Int, convert_brenton_chapter_to_rahlfs book c' =
      Except.error ("Unknown Brenton book: " ++ book) := by
    intro c'
    unfold convert_brenton_chapter_to_rahlfs
    rw [if_neg (by simp [hneh]), hbook]
  refine ⟨hcv c, ?_⟩
  cases ch with
  | none => rfl
  | some c' =>
    cases vs with
    | none => rfl
    | some v' =>
      show isLikelyTypoCore word book c' v' g = corpusFallback word g
      unfold isLikelyTypoCore
      split
      · have herr : tryScopedSearch word book c' v' g =
            Except.error ("Unknown Brenton book: " ++ book) := by
          unfold tryScopedSearch convert_brenton_reference_to_rahlfs
          rw [hcv c']
        rw [herr]
      · rfl

/-- Witness for `C8_unknown_book_fallback` at the unknown book name
"ΑΓΝΩΣΤΟΝ" over the concrete fixture corpus. -/
theorem C8_unknown_book_fallback_witness :
    convert_brenton_chapter_to_rahlfs "ΑΓΝΩΣΤΟΝ" 3 =
      Except.error ("Unknown Brenton book: " ++ "ΑΓΝΩΣΤΟΝ") ∧
    is_likely_typo "ηη".data (some "ΑΓΝΩΣΤΟΝ") (some 3) (some 7) globalsFix =
      corpusFallback "ηη".data globalsFix :=
  C8_unknown_book_fallback "ηη".data "ΑΓΝΩΣΤΟΝ" (some 3) (some 7) globalsFix 3
    (by decide) (by decide)

/-! ### Claim C10 -/

/-- C10: when the match engine finds a legitimate spelling variation at
verse scope, it returns `is_typo = false`, score exactly 1, the matched
original form and the `legitimate_variation` flag (with `verse_match` set);
when it finds one at area scope after the verse scope yielded nothing, it
returns the same shape with `area_match` set instead.  In both cases the
returned tuple is fully determined by the variation check — the fuzzy typo
search at that scope is never consulted. -/
theorem C10_legitimate_variation_result :
    (∀ (word : List Char) (book : String) (ch vs : Int) (g : Globals)
       (rref sref : String) (rvw svw : List (List Char × List Char))
       (m : Option (List Char)) (s : ℚ),
      allTruthy book ch vs g = true →
      convert_brenton_reference_to_rahlfs book ch vs = Except.ok rref →
      convert_brenton_reference_to_swete book ch vs = Except.ok sref →
      get_verse_words rref g.RAHLFS_VERSE_MAP g.RAHLFS_SORTED_VERSES
        g.RAHLFS_WORDS_DICT = rvw →
      get_verse_words sref g.SWETE_VERSE_MAP g.SWETE_SORTED_VERSES
        g.SWETE_WORDS_DICT = svw →
      (!rvw.isEmpty || !svw.isEmpty) = true →
      check_legitimate_variations_in_scope word rvw svw = (true, m, s) →
      is_likely_typo word (some book) (some ch) (some vs) g =
        (false, m, 1, true, false, true)) ∧
    (∀ (word : List Char) (book : String) (ch vs : Int) (g : Globals)
       (rref sref : String) (rvw svw raw saw : List (List Char × List Char))
       (mv tv : Option (List Char)) (sv rv : ℚ)
       (m : Option (List Char)) (s : ℚ),
      allTruthy book ch vs g = true →
      convert_brenton_reference_to_rahlfs book ch vs = Except.ok rref →
      convert_brenton_reference_to_swete book ch vs = Except.ok sref →
      get_verse_words rref g.RAHLFS_VERSE_MAP g.RAHLFS_SORTED_VERSES
        g.RAHLFS_WORDS_DICT = rvw →
      get_verse_words sref g.SWETE_VERSE_MAP g.SWETE_SORTED_VERSES
        g.SWETE_WORDS_DICT = svw →
      check_legitimate_variations_in_scope word rvw svw = (false, mv, sv) →
      check_typos_in_scope word rvw svw = (false, tv, rv) →
      get_area_words rref g.RAHLFS_VERSE_MAP g.RAHLFS_SORTED_VERSES
        g.RAHLFS_WORDS_DICT 20 = raw →
      get_area_words sref g.SWETE_VERSE_MAP g.SWETE_SORTED_VERSES
        g.SWETE_WORDS_DICT 20 = saw →
      (!raw.isEmpty || !saw.isEmpty) = true →
      check_legitimate_variations_in_scope word raw saw = (true, m, s) →
      is_likely_typo word (some book) (some ch) (some vs) g =
        (false, m, 1, false, true, true)) := by
  constructor
  · intro word book ch vs g rref sref rvw svw m s
      hguard hr hs2 hrv hsv hne hlv
    show isLikelyTypoCore word book ch vs g = _
    have hts : tryScopedSearch word book ch vs g =
        Except.ok (some (false, m, 1, true, false, true)) := by
      unfold tryScopedSearch
      rw [hr, hs2]
      dsimp only
      rw [hrv, hsv, if_pos hne, hlv]
      simp
    unfold isLikelyTypoCore
    rw [if_pos hguard, hts]
  · intro word book ch vs g rref sref rvw svw raw saw mv tv sv rv m s
      hguard hr hs2 hrv hsv hlv0 hty0 hra hsa hane halv
    show isLikelyTypoCore word book ch vs g = _
    have hts : tryScopedSearch word book ch vs g =
        Except.ok (some (false, m, 1, false, true, true)) := by
      unfold tryScopedSearch
      rw [hr, hs2]
      dsimp only
      rw [hrv, hsv, hra, hsa]
      by_cases hvne : (!rvw.isEmpty || !svw.isEmpty) = true
      · rw [if_pos hvne, hlv0, hty0]
        simp [hane, halv]
      · rw [if_neg hvne]
        simp [hane, halv]
    unfold isLikelyTypoCore
    rw [if_pos hguard, hts]

/-! ### Claim C6: dictionary and range lemmas -/

theorem intRange_cons (s e : Int) (h : s ≤ e) :
    intRange s e = s :: intRange (s + 1) e := by
  unfold intRange
  have h1 : (e + 1 - s).toNat = (e + 1 - (s + 1)).toNat + 1 := by omega
  rw [h1, List.range_succ_eq_map]
  simp only [List.map_cons, List.map_map]
  congr 1
  · simp only [Int.ofNat_eq_coe, Nat.cast_zero, add_zero]
  · apply List.map_congr_left
    intro x _
    simp only [Function.comp_apply, Int.ofNat_eq_coe]
    omega

theorem intRange_split (s i e : Int) (h1 : s ≤ i) (h2 : i ≤ e + 1) :
    intRange s e = intRange s (i - 1) ++ intRange i e := by
  unfold intRange
  have hn : (e + 1 - s).toNat = (i - 1 + 1 - s).toNat + (e + 1 - i).toNat := by
    omega
  rw [hn, List.range_add, List.map_append, List.map_map]
  congr 1
  apply List.map_congr_left
  intro x _
  simp only [Function.comp_apply, Int.ofNat_eq_coe]
  omega

/-- If word-IDs i and i + 1 both lie in the range and are both present in
the dictionary, their entries are consecutive in `wordsInOrder`. -/
theorem wordsInOrder_adjacent (s e i : Int)
    (wd : List (Int × (List Char × List Char))) (w1 w2 : List Char × List Char)
    (h1 : pyFind? wd i = some w1) (h2 : pyFind? wd (i + 1) = some w2)
    (hs : s ≤ i) (he : i + 1 ≤ e) :
    ∃ P Q, wordsInOrder s e wd = P ++ w1 :: w2 :: Q := by
  have hsp : intRange s e = intRange s (i - 1) ++ intRange i e :=
    intRange_split s i e hs (by omega)
  have hc1 : intRange i e = i :: intRange (i + 1) e :=
    intRange_cons _ _ (by omega)
  have hc2 : intRange (i + 1) e = (i + 1) :: intRange (i + 1 + 1) e :=
    intRange_cons _ _ (by omega)
  refine ⟨(intRange s (i - 1)).filterMap (fun word_id => pyFind? wd word_id),
    (intRange (i + 1 + 1) e).filterMap (fun word_id => pyFind? wd word_id), ?_⟩
  unfold wordsInOrder
  rw [hsp, hc1, hc2, List.filterMap_append]
  simp only [List.filterMap_cons, h1, h2]

/-- A pair of consecutive elements of a list is a member of the list zipped
with its own tail. -/
theorem mem_zip_tail {α : Type} (P Q : List α) (x y : α) :
    (x, y) ∈ (P ++ x :: y :: Q).zip (P ++ x :: y :: Q).tail := by
  induction P with
  | nil => simp [List.zip_cons_cons]
  | cons a P ih =>
    cases P with
    | nil =>
      simp only [List.nil_append, List.cons_append, List.tail_cons,
        List.zip_cons_cons] at *
      exact List.mem_cons_of_mem _ ih
    | cons b P' =>
      simp only [List.cons_append, List.tail_cons, List.zip_cons_cons] at *
      exact List.mem_cons_of_mem _ ih

theorem find?_map_self {α β : Type} [BEq α] [LawfulBEq α] (k : α) (v : β) :
    ∀ d : List (α × β), d.any (fun p => p.1 == k) = true →
      List.find? (fun p => p.1 == k)
        (d.map (fun p => if (p.1 == k) = true then (k, v) else p)) =
      some (k, v) := by
  intro d
  induction d with
  | nil => intro h; simp at h
  | cons p d ih =>
    intro h
    simp only [List.map_cons, List.find?_cons]
    cases hp : (p.1 == k) with
    | true => simp [hp]
    | false =>
      simp only [hp, Bool.false_eq_true, if_false]
      apply ih
      simp only [List.any_cons, hp, Bool.false_or] at h
      exact h

theorem find?_append_single {α β : Type} [BEq α] [LawfulBEq α]
    (k : α) (v : β) :
    ∀ d : List (α × β), d.any (fun p => p.1 == k) = false →
      List.find? (fun p => p.1 == k) (d ++ [(k, v)]) = some (k, v) := by
  intro d
  induction d with
  | nil => simp
  | cons p d ih =>
    intro h
    simp only [List.any_cons, Bool.or_eq_false_iff] at h
    simp only [List.cons_append, List.find?_cons, h.1]
    exact ih h.2

theorem pyFind?_pyInsert_self {α β : Type} [BEq α] [LawfulBEq α]
    (d : List (α × β)) (k : α) (v : β) :
    pyFind? (pyInsert d k v) k = some v := by
  unfold pyInsert pyFind?
  split
  case isTrue h =>
    rw [find?_map_self k v d h]
    rfl
  case isFalse h =>
    rw [find?_append_single k v d (Bool.eq_false_iff.mpr h)]
    rfl

theorem find?_map_ne {α β : Type} [BEq α] [LawfulBEq α] (k k' : α) (v : β)
    (hne : ¬ k' = k) :
    ∀ d : List (α × β),
      List.find? (fun p => p.1 == k')
        (d.map (fun p => if (p.1 == k) = true then (k, v) else p)) =
      List.find? (fun p => p.1 == k') d := by
  have hkk : (k == k') = false := by simpa using fun h => hne h.symm
  intro d
  induction d with
  | nil => rfl
  | cons p d ih =>
    simp only [List.map_cons, List.find?_cons]
    cases hp : (p.1 == k) with
    | true =>
      have hpk : p.1 = k := by simpa using hp
      have hpk' : (p.1 == k') = false := by rw [hpk]; exact hkk
      simp only [hp, if_true, hkk, hpk']
      exact ih
    | false =>
      simp only [hp, Bool.false_eq_true, if_false]
      cases hq : (p.1 == k') <;> simp [hq, ih]

theorem find?_append_single_ne {α β : Type} [BEq α] [LawfulBEq α]
    (k k' : α) (v : β) (hne : ¬ k' = k) :
    ∀ d : List (α × β),
      List.find? (fun p => p.1 == k') (d ++ [(k, v)]) =
      List.find? (fun p => p.1 == k') d := by
  have hkk : (k == k') = false := by simpa using fun h => hne h.symm
  intro d
  induction d with
  | nil => simp [hkk]
  | cons p d ih =>
    simp only [List.cons_append, List.find?_cons]
    cases hq : (p.1 == k') <;> simp [ih]

theorem pyFind?_pyInsert_ne {α β : Type} [BEq α] [LawfulBEq α]
    (d : List (α × β)) (k k' : α) (v : β) (hne : ¬ k' = k) :
    pyFind? (pyInsert d k v) k' = pyFind? d k' := by
  unfold pyInsert pyFind?
  split
  · rw [find?_map_ne k k' v hne d]
  · rw [find?_append_single_ne k k' v hne d]

/-- The final value of a key after a fold of dict updates: if some write
touches the key and every write to it writes the same value, that value is
what the lookup returns. -/
theorem foldl_insert_find {γ α β : Type} [BEq α] [LawfulBEq α]
    (key : γ → α) (val : γ → β) :
    ∀ (W : List γ) (d0 : List (α × β)) (K : α) (V : β),
    (∀ p ∈ W, key p = K → val p = V) →
    ((∃ p ∈ W, key p = K) ∨ pyFind? d0 K = some V) →
    pyFind? (W.foldl (fun d p => pyInsert d (key p) (val p)) d0) K = some V := by
  intro W
  induction W with
  | nil =>
    rintro d0 K V hall (⟨p, hp, _⟩ | hd)
    · cases hp
    · simpa using hd
  | cons p W ih =>
    rintro d0 K V hall hex
    simp only [List.foldl_cons]
    by_cases hk : key p = K
    · refine ih _ K V (fun q hq hqk => hall q (List.mem_cons_of_mem _ hq) hqk)
        (Or.inr ?_)
      have hv : val p = V := hall p (List.mem_cons_self _ _) hk
      rw [hk, hv]
      exact pyFind?_pyInsert_self d0 K V
    · refine ih _ K V (fun q hq hqk => hall q (List.mem_cons_of_mem _ hq) hqk) ?_
      rcases hex with ⟨q, hq, hqk⟩ | hd
      · rcases List.mem_cons.mp hq with rfl | hq'
        · exact absurd hqk hk
        · exact Or.inl ⟨q, hq', hqk⟩
      · refine Or.inr ?_
        rw [pyFind?_pyInsert_ne d0 (key p) K (val p) (fun h => hk h.symm)]
        exact hd

/-! ### Claim C6 -/

/-- C6 counterexample: the compound entry of an ID-adjacent pair can be
overwritten.  In `wordsC6` the pairs (5, 6) and (6, 7) both produce the key
αα; the later pair wins, so the entry for the pair (5, 6) — whose
space-joined originals are "α ά" — actually holds "ά α", refuting the
claimed value for that pair. -/
theorem C6_counterexample :
    pyFind? (get_words_by_id_range 5 7 wordsC6) "αα".data =
      some "ά α".data ∧
    "ά α".data ≠ "α ά".data ∧
    pyFind? wordsC6 5 = some ("α".data, "α".data) ∧
    pyFind? wordsC6 6 = some ("α".data, "ά".data) := by decide

/-- C6 amended: for every pair of ID-adjacent words (i, i + 1) present in
the resolved range, the scope map contains the compound entry with the
concatenated normalised key and the space-joined original value — provided
every consecutive pair in the range that produces the same concatenated key
produces the same joined value (dict writes overwrite; by
`C6_counterexample` the proviso cannot be dropped).  Single-word entries
never interfere: all compound writes happen after them. -/
theorem C6_compound_entry (s e i : Int)
    (wd : List (Int × (List Char × List Char)))
    (w1 w2 : List Char × List Char)
    (h1 : pyFind? wd i = some w1) (h2 : pyFind? wd (i + 1) = some w2)
    (hs : s ≤ i) (he : i + 1 ≤ e)
    (huniq : ∀ p ∈ (wordsInOrder s e wd).zip (wordsInOrder s e wd).tail,
      p.1.1 ++ p.2.1 = w1.1 ++ w2.1 →
      p.1.2 ++ [' '] ++ p.2.2 = w1.2 ++ [' '] ++ w2.2) :
    pyFind? (get_words_by_id_range s e wd) (w1.1 ++ w2.1) =
      some (w1.2 ++ [' '] ++ w2.2) := by
  unfold get_words_by_id_range
  refine foldl_insert_find
    (fun (p : (List Char × List Char) × (List Char × List Char)) =>
      p.1.1 ++ p.2.1)
    (fun (p : (List Char × List Char) × (List Char × List Char)) =>
      p.1.2 ++ [' '] ++ p.2.2) _ _ _ _ huniq (Or.inl ?_)
  obtain ⟨P, Q, hPQ⟩ := wordsInOrder_adjacent s e i wd w1 w2 h1 h2 hs he
  refine ⟨(w1, w2), ?_, rfl⟩
  rw [hPQ]
  exact mem_zip_tail P Q w1 w2

/-- Witness for `C6_compound_entry`: the claim's own instance — adjacent
words περι (id 5) and τεμειν (id 6) yield the entry περιτεμειν ↦
"περι τεμειν". -/
theorem C6_compound_entry_witness :
    pyFind? (get_words_by_id_range 5 6 wordsC6pos) "περιτεμειν".data =
      some "περι τεμειν".data :=
  C6_compound_entry 5 6 5 wordsC6pos ("περι".data, "περι".data)
    ("τεμειν".data, "τεμειν".data) (by decide) (by decide) (by decide)
    (by decide) (by decide)

/-- Witness for `C10_legitimate_variation_result`: over the fixture corpora,
the token εε is matched as a legitimate variation of ηη in its own verse
(verse scope), and in the neighbouring-verse fixture only at area scope. -/
theorem C10_legitimate_variation_result_witness :
    is_likely_typo "εε".data (some "ΓΕΝΕΣΙΣ") (some 1) (some 1) globalsFix =
      (false, some "ηη".data, 1, true, false, true) ∧
    is_likely_typo "εε".data (some "ΓΕΝΕΣΙΣ") (some 1) (some 2) globalsAreaFix =
      (false, some "ηη".data, 1, false, true, true) :=
  ⟨C10_legitimate_variation_result.1 "εε".data "ΓΕΝΕΣΙΣ" 1 1 globalsFix
      "Gen.1.1" "Gen.1:1" [("ηη".data, "ηη".data)] [] (some "ηη".data) 21
      (by decide) rfl rfl (by decide) rfl (by decide) (by decide),
   C10_legitimate_variation_result.2 "εε".data "ΓΕΝΕΣΙΣ" 1 2 globalsAreaFix
      "Gen.1.2" "Gen.1:2" [("χχ".data, "χχ".data)] []
      [("ηη".data, "ηη".data), ("χχ".data, "χχ".data),
        ("ηηχχ".data, "ηη χχ".data)] []
      none none 0 0 (some "ηη".data) 21
      (by decide) rfl rfl (by decide) rfl (by decide) (by decide)
      (by decide) rfl (by decide) (by decide)⟩

/-! ### Claim C4: typo-search lemmas -/

theorem le_foldl_max {α : Type} (f : α → ℚ) :
    ∀ (l : List α) (r0 : ℚ), r0 ≤ l.foldl (fun m x => max m (f x)) r0 := by
  intro l
  induction l with
  | nil => intro r0; exact le_refl r0
  | cons a l ih =>
    intro r0
    exact le_trans (le_max_left r0 (f a)) (ih (max r0 (f a)))

theorem le_bestSpec (wd : List (List Char × List Char)) (n : List Char)
    (b0 : ℚ) : b0 ≤ bestSpec wd n b0 :=
  le_foldl_max (ratioSpec n) (eligSpec wd n) b0

/-- The fold of `find_best_match` computes exactly the specification-side
best score and first-attaining match, for any starting accumulator. -/
theorem fbm_fold_char (n : List Char) :
    ∀ (wd : List (List Char × List Char)) (m0 : Option (List Char)) (b0 : ℚ),
      wd.foldl (fbmStep (normalize_for_comparison n)
          (normalize_for_comparison n).length) (m0, b0)
        = (firstBestFrom wd n m0 b0, bestSpec wd n b0) := by
  intro wd
  induction wd with
  | nil =>
    intro m0 b0
    simp [bestSpec, eligSpec, firstBestFrom]
  | cons kv wd ih =>
    intro m0 b0
    rw [List.foldl_cons]
    by_cases helig : ((((normalize_for_comparison kv.1).length : Int)
        - ((normalize_for_comparison n).length : Int)).natAbs ≤ 2)
    · have hg : ¬ ((((normalize_for_comparison kv.1).length : Int)
          - ((normalize_for_comparison n).length : Int)).natAbs > 2) := by omega
      have helim : eligSpec (kv :: wd) n = kv :: eligSpec wd n := by
        unfold eligSpec
        rw [List.filter_cons, if_pos (decide_eq_true helig)]
      have hstep : fbmStep (normalize_for_comparison n)
          (normalize_for_comparison n).length (m0, b0) kv
          = if ratioSpec n kv > b0 then (some kv.1, ratioSpec n kv)
            else (m0, b0) := by
        show (if (((normalize_for_comparison kv.1).length : Int)
            - ((normalize_for_comparison n).length : Int)).natAbs > 2 then (m0, b0)
          else if smRatio (normalize_for_comparison n)
              (normalize_for_comparison kv.1) > b0
            then (some kv.1, smRatio (normalize_for_comparison n)
              (normalize_for_comparison kv.1))
            else (m0, b0)) = _
        rw [if_neg hg]
        rfl
      rw [hstep]
      have hbs : bestSpec (kv :: wd) n b0
          = bestSpec wd n (max b0 (ratioSpec n kv)) := by
        unfold bestSpec
        rw [helim, List.foldl_cons]
      by_cases hr : ratioSpec n kv > b0
      · rw [if_pos hr, ih (some kv.1) (ratioSpec n kv)]
        have hmax : max b0 (ratioSpec n kv) = ratioSpec n kv :=
          max_eq_right (le_of_lt hr)
        have hbs2 : bestSpec (kv :: wd) n b0
            = bestSpec wd n (ratioSpec n kv) := by rw [hbs, hmax]
        have hBr : ratioSpec n kv ≤ bestSpec wd n (ratioSpec n kv) :=
          le_bestSpec wd n (ratioSpec n kv)
        have hkey : firstBestFrom wd n (some kv.1) (ratioSpec n kv)
            = firstBestFrom (kv :: wd) n m0 b0 := by
          have hBb0 : bestSpec wd n (ratioSpec n kv) > b0 :=
            lt_of_lt_of_le hr hBr
          unfold firstBestFrom
          rw [hbs2, helim, if_pos hBb0, List.find?_cons]
          by_cases hEq : ratioSpec n kv = bestSpec wd n (ratioSpec n kv)
          · have hnlt : ¬ bestSpec wd n (ratioSpec n kv) > ratioSpec n kv := by
              rw [← hEq]; exact lt_irrefl _
            rw [if_neg hnlt, decide_eq_true hEq]
            rfl
          · have hlt : ratioSpec n kv < bestSpec wd n (ratioSpec n kv) :=
              lt_of_le_of_ne hBr hEq
            rw [if_pos hlt, decide_eq_false hEq]
        rw [hkey, hbs2]
      · rw [if_neg hr, ih m0 b0]
        have hmax : max b0 (ratioSpec n kv) = b0 :=
          max_eq_left (not_lt.mp hr)
        have hbs2 : bestSpec (kv :: wd) n b0 = bestSpec wd n b0 := by
          rw [hbs, hmax]
        have hkey : firstBestFrom wd n m0 b0
            = firstBestFrom (kv :: wd) n m0 b0 := by
          unfold firstBestFrom
          rw [hbs2, helim]
          by_cases hB : bestSpec wd n b0 > b0
          · have hne : ratioSpec n kv ≠ bestSpec wd n b0 :=
              ne_of_lt (lt_of_le_of_lt (not_lt.mp hr) hB)
            rw [List.find?_cons, decide_eq_false hne]
          · simp only [if_neg hB]
        rw [hkey, hbs2]
    · have hg : (((normalize_for_comparison kv.1).length : Int)
          - ((normalize_for_comparison n).length : Int)).natAbs > 2 := by
        omega
      have hstep : fbmStep (normalize_for_comparison n)
          (normalize_for_comparison n).length (m0, b0) kv = (m0, b0) := by
        show (if (((normalize_for_comparison kv.1).length : Int)
            - ((normalize_for_comparison n).length : Int)).natAbs > 2 then (m0, b0)
          else if smRatio (normalize_for_comparison n)
              (normalize_for_comparison kv.1) > b0
            then (some kv.1, smRatio (normalize_for_comparison n)
              (normalize_for_comparison kv.1))
            else (m0, b0)) = _
        rw [if_pos hg]
      have helim : eligSpec (kv :: wd) n = eligSpec wd n := by
        unfold eligSpec
        rw [List.filter_cons, if_neg (by simpa using helig)]
      have hbs : bestSpec (kv :: wd) n b0 = bestSpec wd n b0 := by
        unfold bestSpec
        rw [helim]
      have hfb : firstBestFrom (kv :: wd) n m0 b0
          = firstBestFrom wd n m0 b0 := by
        unfold firstBestFrom
        rw [hbs, helim]
      rw [hstep, ih m0 b0, hfb, hbs]

/-- `find_closest_word` agrees with its declarative restatement. -/
theorem fcw_char (word : List Char) (wd : List (List Char × List Char)) :
    find_closest_word word wd = fcwSpec word wd := by
  have h1 : find_best_match wd (strip_diacritics (pyLower word)) 0
      = (firstBestFrom wd (strip_diacritics (pyLower word)) none 0,
         bestSpec wd (strip_diacritics (pyLower word)) 0) :=
    fbm_fold_char (strip_diacritics (pyLower word)) wd none 0
  have h2 : find_best_match wd (strip_diacritics (pyLower word) ++ ['ν'])
        (bestSpec wd (strip_diacritics (pyLower word)) 0)
      = (firstBestFrom wd (strip_diacritics (pyLower word) ++ ['ν']) none
           (bestSpec wd (strip_diacritics (pyLower word)) 0),
         bestSpec wd (strip_diacritics (pyLower word) ++ ['ν'])
           (bestSpec wd (strip_diacritics (pyLower word)) 0)) :=
    fbm_fold_char (strip_diacritics (pyLower word) ++ ['ν']) wd none
      (bestSpec wd (strip_diacritics (pyLower word)) 0)
  unfold find_closest_word fcwSpec
  dsimp only
  rw [h1]
  dsimp only
  rw [h2]

/-- C4 counterexample: the claim says a typo is declared exactly when the
best score clears 0.80, but the code also requires the winning key to be
truthy. With the empty string as a dict key and the empty token, the best
(and only) candidate scores 1 ≥ 0.80, yet `find_closest_word` reports no
typo, because the empty-string match is falsy in Python. -/
theorem C4_counterexample :
    find_best_match [([], ['x'])] [] 0 = (some [], 1) ∧
    (1 : ℚ) ≥ mkRat 4 5 ∧
    find_closest_word [] [([], ['x'])] = (none, 0) := by
  refine ⟨by decide, by decide, by decide⟩

/-- C4 (amended): the typo search considers only candidates whose
normalize-for-comparison length differs from the token's by at most 2, keeps
the first candidate attaining the highest similarity ratio above the seed
(ties broken by insertion order), never returns a score below the seed (so
the ν-retry, seeded with the first search's score, keeps whichever of the two
searches scored higher), and declares a typo iff the best score is ≥ 0.80
AND the winning normalized key is non-empty (Python truthiness). -/
theorem C4_typo_search_amended (word_dict : List (List Char × List Char))
    (normalized word : List Char) (r0 : ℚ) :
    find_best_match word_dict normalized r0
      = (firstBestFrom word_dict normalized none r0,
         bestSpec word_dict normalized r0) ∧
    r0 ≤ bestSpec word_dict normalized r0 ∧
    find_closest_word word word_dict = fcwSpec word word_dict :=
  ⟨fbm_fold_char normalized word_dict none r0,
   le_bestSpec word_dict normalized r0,
   fcw_char word word_dict⟩

end BrentonSpec
